import Mathlib

/-! Article catalogue of the blog service.

A shallow embedding of the article service (`internal/service/system/articleSvc.go`),
the index access helpers (`pkg/elasticSearch`, `pkg/articleUtils`) and the response
mapping (`internal/model/dto/response`), followed by theorems about them.

Conventions of the embedding:

* a Go slice whose nil-ness is observable is a `Slice` (`none` is the nil slice);
  slices that are only ranged over or measured with `len` are plain lists;
* a JSON object is an association list read by key; the values that occur in article
  documents are strings, integers, string arrays and `null`, every other JSON value
  is `JVal.other`;
* every call to a collaborator (search index, counter repository, image classifier)
  is appended to a call log, and an oracle of the environment decides whether the
  call fails, so that a failure can be placed at any position of any run;
* Go `int`, `int64` and `uint` are 64 bits wide.
-/

namespace Blog

/-! ## Slices -/

/-- Go slice whose nil-ness matters: `none` is the nil slice, `some l` a non-nil slice. -/
abbrev Slice (α : Type) := Option (List α)

/-- Elements of a slice, as `range` visits them. -/
def Slice.elems {α : Type} : Slice α → List α
  | none => []
  | some l => l

/-- Go `append(s, x)`: the result is never nil. -/
def Slice.push {α : Type} (s : Slice α) (x : α) : Slice α :=
  some (s.elems ++ [x])

/-! ## JSON documents -/

/-- JSON value, as far as article documents use them. -/
inductive JVal where
  | null
  | str (s : String)
  | num (n : Int)
  | strs (l : List String)
  | other
deriving DecidableEq

/-- JSON object: the source of an indexed document. -/
abbrev Doc := List (String × JVal)

/-- Errors of the service. `wrap step e` is `fmt.Errorf("<step>: %v", e)`. -/
inductive Err where
  | notFound
  | decode
  | dependency
  | parse
  | wrap (step : String) (cause : Err)
deriving DecidableEq

/-- Largest Go `uint` plus one. -/
def uintBound : Int := 18446744073709551616

/-- Largest Go `int` plus one. -/
def intBound : Int := 9223372036854775808

/-- Decoding of a JSON member into a Go `string` field (absent and `null` leave the
zero value). -/
def decodeString (d : Doc) (key : String) : Except Err String :=
  match d.lookup key with
  | none => .ok ""
  | some .null => .ok ""
  | some (.str s) => .ok s
  | some _ => .error .decode

/-- Decoding of a JSON member into a Go `[]string` field. -/
def decodeStrings (d : Doc) (key : String) : Except Err (Slice String) :=
  match d.lookup key with
  | none => .ok none
  | some .null => .ok none
  | some (.strs l) => .ok (some l)
  | some _ => .error .decode

/-- Decoding of a JSON member into a Go `uint` field. -/
def decodeUint (d : Doc) (key : String) : Except Err Nat :=
  match d.lookup key with
  | none => .ok 0
  | some .null => .ok 0
  | some (.num n) => if 0 ≤ n ∧ n < uintBound then .ok n.toNat else .error .decode
  | some _ => .error .decode

/-- Decoding of a JSON member into a Go `int` field. -/
def decodeInt (d : Doc) (key : String) : Except Err Int :=
  match d.lookup key with
  | none => .ok 0
  | some .null => .ok 0
  | some (.num n) => if -intBound ≤ n ∧ n < intBound then .ok n else .error .decode
  | some _ => .error .decode

/-- Setting of one member of a JSON object: replaced in place when present,
added at the end otherwise. -/
def Doc.set (d : Doc) (key : String) (v : JVal) : Doc :=
  if (d.lookup key).isSome then
    d.map (fun kv => if kv.1 = key then (key, v) else kv)
  else d ++ [(key, v)]

/-- Merge of a partial document into a stored one (the index's update-by-id):
every member of the partial document replaces or extends the stored object. -/
def mergeDoc (stored partialDoc : Doc) : Doc :=
  partialDoc.foldl (fun d kv => d.set kv.1 kv.2) stored

/-! ## Article documents (`internal/model/elasticsearch/article.go`) -/

/-- Article, the indexed document. -/
structure Article where
  CreatedAt : String
  UpdatedAt : String
  Cover : String
  Title : String
  Keyword : String
  Category : String
  Tags : Slice String
  Abstract : String
  Content : String
  VisibleRange : Nat
  Views : Int
  Comments : Int
  Likes : Int
deriving DecidableEq

/-- JSON encoding of a `[]string`. -/
def encodeStrings : Slice String → JVal
  | none => .null
  | some l => .strs l

/-- Encoding `json.Marshal` gives an `Article`, member names from its JSON tags. -/
def marshalArticle (a : Article) : Doc :=
  [ ("created_at", .str a.CreatedAt),
    ("updated_at", .str a.UpdatedAt),
    ("cover", .str a.Cover),
    ("title", .str a.Title),
    ("keyword", .str a.Keyword),
    ("category", .str a.Category),
    ("tags", encodeStrings a.Tags),
    ("abstract", .str a.Abstract),
    ("content", .str a.Content),
    ("visibleRange", .num a.VisibleRange),
    ("views", .num a.Views),
    ("comments", .num a.Comments),
    ("likes", .num a.Likes) ]

/-- Decoding `json.Unmarshal` performs into a fresh `Article`, member names from its
JSON tags. A member of the wrong type makes the decoding fail. -/
def unmarshalArticle (d : Doc) : Except Err Article := do
  let createdAt ← decodeString d "created_at"
  let updatedAt ← decodeString d "updated_at"
  let cover ← decodeString d "cover"
  let title ← decodeString d "title"
  let keyword ← decodeString d "keyword"
  let category ← decodeString d "category"
  let tags ← decodeStrings d "tags"
  let abstract ← decodeString d "abstract"
  let content ← decodeString d "content"
  let visibleRange ← decodeUint d "visibleRange"
  let views ← decodeInt d "views"
  let comments ← decodeInt d "comments"
  let likes ← decodeInt d "likes"
  return { CreatedAt := createdAt, UpdatedAt := updatedAt, Cover := cover, Title := title,
           Keyword := keyword, Category := category, Tags := tags, Abstract := abstract,
           Content := content, VisibleRange := visibleRange, Views := views,
           Comments := comments, Likes := likes }

/-- ArticleIndex: name of the article index. -/
def ArticleIndex : String := "article_index"

/-! ## Requests (`internal/model/dto/request/articleReq.go`) -/

/-- ArticleCreateReq: body of a create request. -/
structure ArticleCreateReq where
  Cover : String
  Title : String
  Category : String
  Tags : Slice String
  Abstract : String
  Content : String
  VisibleRange : Nat
deriving DecidableEq

/-- ArticleDeleteReq: body of a delete request. -/
structure ArticleDeleteReq where
  IDs : List String
deriving DecidableEq

/-- ArticleUpdateReq: body of an update request. -/
structure ArticleUpdateReq where
  ID : String
  Cover : String
  Title : String
  Category : String
  Tags : Slice String
  Abstract : String
  Content : String
  VisibleRange : Nat
deriving DecidableEq

/-- PageInfo: page number and page size of a list request (both Go `int`). -/
structure PageInfo where
  Page : Int
  PageSize : Int
deriving DecidableEq

/-- ArticleListReq: filters of a list request; a nil pointer is `none`. -/
structure ArticleListReq where
  ID : Option String
  Title : Option String
  Category : Option String
  Tag : Option String
  Abstract : Option String
  VisibleRange : Nat
  pageInfo : PageInfo
deriving DecidableEq

/-! ## Search requests (the parts of the typed client the service fills in) -/

/-- Value of a term clause: the service passes a string or a `uint`. -/
inductive TermValue where
  | str (s : String)
  | uint (n : Nat)
deriving DecidableEq

/-- One clause of a bool query: `Match` on a field or `Term` on a field. -/
inductive Clause where
  | matchQ (field : String) (query : String)
  | term (field : String) (value : TermValue)
deriving DecidableEq

/-- BoolQuery: the `Must` and `Filter` groups. -/
structure BoolQuery where
  Must : Slice Clause
  Filter : Slice Clause
deriving DecidableEq

/-- Query: at most a bool query and a match-all query are ever set. -/
structure Query where
  BoolQ : Option BoolQuery
  MatchAll : Bool
deriving DecidableEq

/-- Sort order of a field sort. -/
inductive SortOrder where
  | asc
  | desc
deriving DecidableEq

/-- Search request: query, sort and window. -/
structure SearchRequest where
  query : Query
  SortBy : Slice (String × SortOrder)
  From : Option Int
  Size : Option Int
deriving DecidableEq

/-- Hit of a search: optional document id and the source. -/
structure Hit where
  Id : Option String
  Source : Doc
deriving DecidableEq

/-- EsOption: parameters of a paginated search. -/
structure EsOption where
  pageInfo : PageInfo
  Index : String
  Request : SearchRequest
  SourceIncludes : List String
  IncludeContent : Bool
deriving DecidableEq

/-! ## Collaborators, world and call log -/

/-- Call to a collaborator, with its arguments. -/
inductive Call where
  | titleExists (title : String)
  | esGet (id : String)
  | esCreate (a : Article)
  | esUpdate (id : String) (doc : Doc)
  | esDelete (ids : List String)
  | esSearch (index : String) (req : SearchRequest) (includes : List String)
  | incOrCreateCategory (name : String)
  | decOrDeleteCategory (name : String)
  | addOrIncTag (names : List String)
  | decOrDeleteTag (names : List String)
  | initImagesCategory (urls : List String)
  | changeImagesCategory (urls : List String) (category : Nat)
deriving DecidableEq

/-- Counter table: name to usage count, `none` when the name has no row. -/
abbrev Counter := String → Option Nat

/-- Relational store: the state a transaction commits or rolls back. -/
structure Rel where
  categories : Counter
  tags : Counter
  images : String → Nat

/-- World: the search index (document id to source), the relational store and the
log of collaborator calls made so far. -/
structure World where
  index : List (String × Doc)
  rel : Rel
  log : List Call

/-- Environment of a run: the clock, the id the index gives the next created document,
the failure oracle (given the calls made so far and the call about to be made, does
it fail), the image extractor and the search engine. -/
structure Env where
  now : String
  newId : String
  fails : List Call → Call → Bool
  findIllustrations : String → Option (List String)
  search : List (String × Doc) → SearchRequest → List String → List Hit × Int

/-- Operation on the world that returns a value or an error; the world is returned
in both cases. -/
abbrev Op (α : Type) := World → Except Err α × World

/-- Sequencing of operations; an error ends the sequence. -/
def Op.bind {α β : Type} (m : Op α) (f : α → Op β) : Op β := fun w =>
  match m w with
  | (.ok a, w1) => f a w1
  | (.error e, w1) => (.error e, w1)

/-- Operation that returns a value and leaves the world alone. -/
def Op.pure {α : Type} (a : α) : Op α := fun w => (.ok a, w)

/-- Operation that returns an error. -/
def Op.fail {α : Type} (e : Err) : Op α := fun w => (.error e, w)

instance : Monad Op where
  pure := Op.pure
  bind := Op.bind

/-- Recording of a call in the log. -/
def World.record (w : World) (c : Call) : World :=
  { w with log := w.log ++ [c] }

/-- Call to a collaborator: it is recorded, and unless the oracle makes it fail its
effect is applied. -/
def invoke (env : Env) (c : Call) (effect : World → World) : Op Unit := fun w =>
  if env.fails w.log c then (.error .dependency, w.record c)
  else (.ok (), effect (w.record c))

/-- Wrapping of the error of a step: `if err != nil { return fmt.Errorf("<step>: %v", err) }`. -/
def Op.wrapErr {α : Type} (step : String) (m : Op α) : Op α := fun w =>
  match m w with
  | (.ok a, w1) => (.ok a, w1)
  | (.error e, w1) => (.error (.wrap step e), w1)

/-- Modelled from the spec: the transaction provider of the repository layer
(`ArticleRepository.Transaction`, not among the sources): the callback runs, and when
it returns an error every relational side effect is rolled back; the search index is
not covered by the rollback. -/
def Transaction (f : Op Unit) : Op Unit := fun w =>
  match f w with
  | (.ok u, w1) => (.ok u, w1)
  | (.error e, w1) => (.error e, { w1 with rel := w.rel })

/-! ### Counter repository -/

/-- Modelled from the spec: what increment-or-create does to the row of the name (the
repository layer is not among the sources): a missing row is created at 1, a present
one gains 1. -/
def incRow : Option Nat → Option Nat
  | none => some 1
  | some k => some (k + 1)

/-- Modelled from the spec: what decrement-or-delete does to the row of the name (the
repository layer is not among the sources): a row loses 1 and is removed when that
leaves 0; a missing row stays missing. -/
def decRow : Option Nat → Option Nat
  | none => none
  | some k => if k ≤ 1 then none else some (k - 1)

/-- Modelled from the spec: increment-or-create of the counter of a name; the rows of
the other names are left alone. -/
def incOrCreate (c : Counter) (name : String) : Counter := fun m =>
  if m = name then incRow (c name) else c m

/-- Modelled from the spec: decrement-or-delete of the counter of a name; the rows of
the other names are left alone. -/
def decOrDelete (c : Counter) (name : String) : Counter := fun m =>
  if m = name then decRow (c name) else c m

/-- Change of the category counters of a world. -/
def World.mapCategories (w : World) (f : Counter → Counter) : World :=
  { w with rel := { w.rel with categories := f w.rel.categories } }

/-- Change of the tag counters of a world. -/
def World.mapTags (w : World) (f : Counter → Counter) : World :=
  { w with rel := { w.rel with tags := f w.rel.tags } }

/-- Change of the image classifications of a world. -/
def World.mapImages (w : World) (f : (String → Nat) → (String → Nat)) : World :=
  { w with rel := { w.rel with images := f w.rel.images } }

/-- IncOrCreateCategory of the article repository. -/
def IncOrCreateCategory (env : Env) (name : String) : Op Unit :=
  invoke env (.incOrCreateCategory name) (fun w => w.mapCategories (fun c => incOrCreate c name))

/-- DecOrDeleteCategory of the article repository. -/
def DecOrDeleteCategory (env : Env) (name : String) : Op Unit :=
  invoke env (.decOrDeleteCategory name) (fun w => w.mapCategories (fun c => decOrDelete c name))

/-- AddOrIncTag of the article repository: increment-or-create for every listed tag. -/
def AddOrIncTag (env : Env) (names : List String) : Op Unit :=
  invoke env (.addOrIncTag names) (fun w => w.mapTags (fun c => names.foldl incOrCreate c))

/-- DecOrDeleteTag of the article repository: decrement-or-delete for every listed tag. -/
def DecOrDeleteTag (env : Env) (names : List String) : Op Unit :=
  invoke env (.decOrDeleteTag names) (fun w => w.mapTags (fun c => names.foldl decOrDelete c))

/-! ### Image classifier -/

/-- Modelled from the spec: reclassification of image URLs (`pkg/imageUtils` is not
among the sources): every listed URL gets the category, the others keep theirs. -/
def reclassify (images : String → Nat) (urls : List String) (category : Nat) : String → Nat :=
  fun u => if u ∈ urls then category else images u

/-- InitImagesCategory: the listed URLs go back to "unused" (category 0). -/
def InitImagesCategory (env : Env) (urls : List String) : Op Unit :=
  invoke env (.initImagesCategory urls) (fun w => w.mapImages (fun i => reclassify i urls 0))

/-- ChangeImagesCategory: the listed URLs get the given category. -/
def ChangeImagesCategory (env : Env) (urls : List String) (category : Nat) : Op Unit :=
  invoke env (.changeImagesCategory urls category)
    (fun w => w.mapImages (fun i => reclassify i urls category))

/-- Modelled from the spec: `util.DiffArrays` (`pkg/util` is not among the sources),
the set difference of two string collections in both directions: the first component
holds the elements of the new collection that the old one lacks (added), the second
the elements of the old collection that the new one lacks (removed). -/
def DiffArrays (oldArr newArr : List String) : List String × List String :=
  (newArr.filter (fun x => decide (x ∉ oldArr)), oldArr.filter (fun x => decide (x ∉ newArr)))

/-! ### Search index (`pkg/elasticSearch/elasticsearch.go`, `pkg/articleUtils`) -/

/-- Get-by-id of the index client: a transport error, or the source of the document
when it is found. -/
def clientGet (env : Env) (id : String) : Op (Option Doc) := fun w =>
  if env.fails w.log (.esGet id) then (.error .dependency, w.record (.esGet id))
  else (.ok (w.index.lookup id), w.record (.esGet id))

/-- Get: the article with the given id; a missing document is an error. -/
def Get (env : Env) (id : String) : Op Article := do
  let res ← clientGet env id
  match res with
  | none => Op.fail .notFound
  | some source =>
    match unmarshalArticle source with
    | .ok a => pure a
    | .error e => Op.fail e

/-- Replacement of the source of the document with the given id. -/
def replaceDoc (index : List (String × Doc)) (id : String) (f : Doc → Doc) :
    List (String × Doc) :=
  index.map (fun e => if e.1 = id then (e.1, f e.2) else e)

/-- Update: the value, already marshalled, is merged into the stored document; a
missing document is an error of the index. -/
def Update (env : Env) (articleID : String) (doc : Doc) : Op Unit := fun w =>
  if env.fails w.log (.esUpdate articleID doc) then
    (.error .dependency, w.record (.esUpdate articleID doc))
  else
    match w.index.lookup articleID with
    | none => (.error .notFound, w.record (.esUpdate articleID doc))
    | some _ =>
      (.ok (), { w.record (.esUpdate articleID doc) with
                 index := replaceDoc w.index articleID (fun d => mergeDoc d doc) })

/-- Delete: one bulk request that removes the listed documents (an id without a
document is skipped by the index). -/
def Delete (env : Env) (ids : List String) : Op Unit :=
  invoke env (.esDelete ids)
    (fun w => { w with index := w.index.filter (fun e => decide (e.1 ∉ ids)) })

/-- CreateArticle: the article is indexed under a new id. -/
def CreateArticle (env : Env) (a : Article) : Op Unit :=
  invoke env (.esCreate a)
    (fun w => { w with index := w.index ++ [(env.newId, marshalArticle a)] })

/-- Exists: is there an article whose keyword is the title. The result of a failed
probe is `false` with the error. -/
def Exists (env : Env) (title : String) : World → (Bool × Option Err) × World := fun w =>
  if env.fails w.log (.titleExists title) then ((false, some .dependency), w.record (.titleExists title))
  else
    ((w.index.any (fun e => e.2.lookup "keyword" == some (.str title)), none),
     w.record (.titleExists title))

/-! ## The article service (`internal/service/system/articleSvc.go`) -/

/-- Document `articleToCreate` that `ArticleCreate` builds from the request and the
current time. -/
def articleToCreate (now : String) (req : ArticleCreateReq) : Article :=
  { CreatedAt := now, UpdatedAt := now, Cover := req.Cover, Title := req.Title,
    Keyword := req.Title, Category := req.Category, Tags := req.Tags,
    Abstract := req.Abstract, Content := req.Content, VisibleRange := req.VisibleRange,
    Views := 0, Comments := 0, Likes := 0 }

/-- ArticleCreate: counters first, the index write last, all inside one transaction.
The outcome of the duplicate-title probe is only logged. -/
def ArticleCreate (env : Env) (req : ArticleCreateReq) : Op Unit := fun w =>
  let w1 := (Exists env req.Title w).2
  let a := articleToCreate env.now req
  Transaction (do
    if a.Category ≠ "" then
      Op.wrapErr "更新分类计数失败" (IncOrCreateCategory env a.Category)
    Op.wrapErr "更新标签计数失败" (AddOrIncTag env a.Tags.elems)
    Op.wrapErr "创建文章失败" (CreateArticle env a)) w1

/-- FindIllustrations of the image utilities, as an operation: the image URLs embedded
in a content, or a parse error. The extraction itself is a parameter of the
environment. -/
def FindIllustrations (env : Env) (content : String) : Op (List String) := fun w =>
  match env.findIllustrations content with
  | none => (.error .parse, w)
  | some urls => (.ok urls, w)

/-- Body of the loop of `ArticleDelete` for one id. -/
def deleteOne (env : Env) (id : String) : Op Unit := do
  let articleToDelete ← Op.wrapErr "获取文章失败" (Get env id)
  Op.wrapErr "更新分类计数失败" (DecOrDeleteCategory env articleToDelete.Category)
  Op.wrapErr "更新标签计数失败" (DecOrDeleteTag env articleToDelete.Tags.elems)
  Op.wrapErr "初始化图片封面类别失败" (InitImagesCategory env [articleToDelete.Cover])
  let imageSlice ← Op.wrapErr "解析插图失败" (FindIllustrations env articleToDelete.Content)
  Op.wrapErr "修改插图类别失败" (ChangeImagesCategory env imageSlice 0)
  Op.wrapErr "删除文章失败" (Delete env [id])

/-- Loop of `ArticleDelete` over the ids, in order; the first error ends it. -/
def deleteLoop (env : Env) : List String → Op Unit
  | [] => pure ()
  | id :: rest => do
    deleteOne env id
    deleteLoop env rest

/-- ArticleDelete: nothing to do for an empty list, otherwise the loop inside one
transaction. -/
def ArticleDelete (env : Env) (req : ArticleDeleteReq) : Op Unit :=
  if req.IDs.length = 0 then pure ()
  else Transaction (deleteLoop env req.IDs)

/-- Payload of `UpdateArticle`, the anonymous struct `articleToUpdate`. -/
structure ArticleUpdateDoc where
  UpdatedAt : String
  Cover : String
  Title : String
  Keyword : String
  Category : String
  Tags : Slice String
  Abstract : String
  VisibleRange : Nat
  Content : String
deriving DecidableEq

/-- Encoding `json.Marshal` gives the update payload, member names from its JSON tags. -/
def marshalUpdate (p : ArticleUpdateDoc) : Doc :=
  [ ("updated_at", .str p.UpdatedAt),
    ("cover", .str p.Cover),
    ("title", .str p.Title),
    ("keyword", .str p.Keyword),
    ("category", .str p.Category),
    ("tags", encodeStrings p.Tags),
    ("abstract", .str p.Abstract),
    ("visible_range", .num p.VisibleRange),
    ("content", .str p.Content) ]

/-- updateCategoryCounts: nothing when the category is unchanged, otherwise the old
one loses a reference and the new one gains one, each only when non-empty. -/
def updateCategoryCounts (env : Env) (oldCategory newCategory : String) : Op Unit :=
  if oldCategory = newCategory then pure ()
  else do
    if oldCategory ≠ "" then
      Op.wrapErr "更新分类计数失败" (DecOrDeleteCategory env oldCategory)
    if newCategory ≠ "" then
      Op.wrapErr "更新分类计数失败" (IncOrCreateCategory env newCategory)
    pure ()

/-- updateTagCounts: removed tags lose a reference, added tags gain one. -/
def updateTagCounts (env : Env) (oldTags newTags : List String) : Op Unit := do
  let (added, removed) := DiffArrays oldTags newTags
  if removed.length > 0 then
    Op.wrapErr "更新标签计数失败" (DecOrDeleteTag env removed)
  if added.length > 0 then
    Op.wrapErr "更新标签计数失败" (AddOrIncTag env added)
  pure ()

/-- updateCoverCategory: nothing when the cover is unchanged, otherwise the old cover
becomes unused and the new one gets category 4, each only when non-empty. -/
def updateCoverCategory (env : Env) (oldCover newCover : String) : Op Unit :=
  if oldCover = newCover then pure ()
  else do
    if oldCover ≠ "" then
      Op.wrapErr "初始化封面类别失败" (InitImagesCategory env [oldCover])
    if newCover ≠ "" then
      Op.wrapErr "更新封面类别失败" (ChangeImagesCategory env [newCover] 4)
    pure ()

/-- updateIllustrationsCategory: a content whose images cannot be extracted counts as
having none; removed images become unused, added ones get category 4. -/
def updateIllustrationsCategory (env : Env) (oldContent newContent : String) : Op Unit := do
  let oldIllustrations : List String :=
    match env.findIllustrations oldContent with
    | none => []
    | some urls => urls
  let newIllustrations : List String :=
    match env.findIllustrations newContent with
    | none => []
    | some urls => urls
  let (addedIllustrations, removedIllustrations) := DiffArrays oldIllustrations newIllustrations
  if removedIllustrations.length > 0 then
    Op.wrapErr "初始化插图类别失败" (InitImagesCategory env removedIllustrations)
  if addedIllustrations.length > 0 then
    Op.wrapErr "更新插图类别失败" (ChangeImagesCategory env addedIllustrations 4)
  pure ()

/-- Payload `articleToUpdate` that `UpdateArticle` builds from the request and the
current time. -/
def articleToUpdate (now : String) (req : ArticleUpdateReq) : ArticleUpdateDoc :=
  { UpdatedAt := now, Cover := req.Cover, Title := req.Title, Keyword := req.Title,
    Category := req.Category, Tags := req.Tags, Abstract := req.Abstract,
    VisibleRange := req.VisibleRange, Content := req.Content }

/-- UpdateArticle: the stored article is read, counters and image classes are
reconciled, and the payload is merged into the stored document last. -/
def UpdateArticle (env : Env) (req : ArticleUpdateReq) : Op Unit :=
  let p := articleToUpdate env.now req
  Transaction (do
    let oldArticle ← Op.wrapErr "获取旧文章失败" (Get env req.ID)
    updateCategoryCounts env oldArticle.Category p.Category
    updateTagCounts env oldArticle.Tags.elems p.Tags.elems
    updateCoverCategory env oldArticle.Cover p.Cover
    updateIllustrationsCategory env oldArticle.Content p.Content
    Op.wrapErr "更新文章内容失败" (Update env req.ID (marshalUpdate p)))

/-! ## Responses (`internal/model/dto/response/articleResp.go`) -/

/-- ArticleItemResp: one article of a response. -/
structure ArticleItemResp where
  ID : String
  CreatedAt : String
  UpdatedAt : String
  Cover : String
  Title : String
  Keyword : String
  Category : String
  Tags : Slice String
  Abstract : String
  Content : String
  VisibleRange : Nat
  Views : Int
  Comments : Int
  Likes : Int
deriving DecidableEq

/-- ArticleListResp: a page of articles with its metadata. -/
structure ArticleListResp where
  List : Slice ArticleItemResp
  Total : Int
  Page : Int
  PageSize : Int
  TotalPages : Int
deriving DecidableEq

/-- FromArticle: response item of a document and its id; the content is filled in
only on request. -/
def FromArticle (id : String) (a : Article) (includeContent : Bool) : ArticleItemResp :=
  let item : ArticleItemResp :=
    { ID := id, CreatedAt := a.CreatedAt, UpdatedAt := a.UpdatedAt, Cover := a.Cover,
      Title := a.Title, Keyword := a.Keyword, Category := a.Category, Tags := a.Tags,
      Abstract := a.Abstract, Content := "", VisibleRange := a.VisibleRange,
      Views := a.Views, Comments := a.Comments, Likes := a.Likes }
  if includeContent then { item with Content := a.Content } else item

/-- FromHit: response item of one hit. -/
def FromHit (hit : Hit) (includeContent : Bool) : Except Err ArticleItemResp :=
  match unmarshalArticle hit.Source with
  | .error e => .error e
  | .ok src =>
    let id := match hit.Id with
      | some i => i
      | none => ""
    .ok (FromArticle id src includeContent)

/-- Loop of `FromHits`: the items are appended to `out`, the first error ends it. -/
def fromHitsLoop (includeContent : Bool) : List Hit → List ArticleItemResp →
    Except Err (Slice ArticleItemResp)
  | [], out => .ok (some out)
  | h :: rest, out =>
    match FromHit h includeContent with
    | .error e => .error e
    | .ok it => fromHitsLoop includeContent rest (out ++ [it])

/-- FromHits: response items of the hits, in order. -/
def FromHits (hits : List Hit) (includeContent : Bool) : Except Err (Slice ArticleItemResp) :=
  fromHitsLoop includeContent hits []

/-! ## Read path -/

/-- Go `unicode.IsSpace`. -/
def isSpace (c : Char) : Bool :=
  let n := c.toNat
  n = 0x09 || n = 0x0A || n = 0x0B || n = 0x0C || n = 0x0D || n = 0x20 || n = 0x85 ||
  n = 0xA0 || n = 0x1680 || (0x2000 ≤ n && n ≤ 0x200A) || n = 0x2028 || n = 0x2029 ||
  n = 0x202F || n = 0x205F || n = 0x3000

/-- Go `strings.TrimSpace`: leading and trailing white space removed. -/
def TrimSpace (s : String) : String :=
  String.mk ((s.data.dropWhile isSpace).reverse.dropWhile isSpace).reverse

/-- Value of a 64-bit signed computation: the result wraps around. -/
def wrapInt (x : Int) : Int :=
  (x + intBound) % (2 * intBound) - intBound

/-- buildArticleSearchRequest: scored clauses go to `Must`, exact ones to `Filter`;
without any clause the query matches everything, newest first. -/
def buildArticleSearchRequest (info : ArticleListReq) : SearchRequest :=
  let boolQuery : BoolQuery := { Must := none, Filter := none }
  let boolQuery : BoolQuery :=
    match info.Title with
    | some title =>
      if TrimSpace title ≠ "" then
        { boolQuery with Must := boolQuery.Must.push (.matchQ "title" title) }
      else boolQuery
    | none => boolQuery
  let boolQuery : BoolQuery :=
    match info.Abstract with
    | some abstract =>
      if TrimSpace abstract ≠ "" then
        { boolQuery with Must := boolQuery.Must.push (.matchQ "abstract" abstract) }
      else boolQuery
    | none => boolQuery
  let boolQuery : BoolQuery :=
    match info.Category with
    | some category =>
      if TrimSpace category ≠ "" then
        { boolQuery with Filter := some [.term "category" (.str category)] }
      else boolQuery
    | none => boolQuery
  let boolQuery : BoolQuery :=
    match info.Tag with
    | some tag =>
      if TrimSpace tag ≠ "" then
        { boolQuery with Filter := boolQuery.Filter.push (.term "tags" (.str tag)) }
      else boolQuery
    | none => boolQuery
  let boolQuery : BoolQuery :=
    if info.VisibleRange ≠ 0 then
      { boolQuery with
        Filter := boolQuery.Filter.push (.term "visible_range" (.uint info.VisibleRange)) }
    else boolQuery
  if boolQuery.Must ≠ none ∨ boolQuery.Filter ≠ none then
    { query := { BoolQ := some boolQuery, MatchAll := false },
      SortBy := none, From := none, Size := none }
  else
    { query := { BoolQ := none, MatchAll := true },
      SortBy := some [("created_at", .desc)], From := none, Size := none }

/-- EsPagination: the page and the page size are coerced, the window is set on the
request, the returned fields default to every field but the content, and the search
runs. -/
def EsPagination (env : Env) (option : EsOption) : Op (List Hit × Int) :=
  let page := if option.pageInfo.Page < 1 then 1 else option.pageInfo.Page
  let pageSize := if option.pageInfo.PageSize < 1 then 10 else option.pageInfo.PageSize
  let fromIdx := wrapInt ((page - 1) * pageSize)
  let request : SearchRequest := { option.Request with Size := some pageSize, From := some fromIdx }
  let sourceIncludes :=
    if option.SourceIncludes.length = 0 then
      let base := ["created_at", "updated_at", "cover", "title", "keyword", "category",
        "tags", "abstract", "visible_range", "views", "comments", "likes"]
      if option.IncludeContent then base ++ ["content"] else base
    else option.SourceIncludes
  fun w =>
    if env.fails w.log (.esSearch option.Index request sourceIncludes) then
      (.error .dependency, w.record (.esSearch option.Index request sourceIncludes))
    else
      (.ok (env.search w.index request sourceIncludes),
       w.record (.esSearch option.Index request sourceIncludes))

/-- articleListByID: the document with the id as a one-item page, or an empty page
when the index has none. -/
def articleListByID (env : Env) (id : String) : Op ArticleListResp := do
  let esRes ← Op.wrapErr "按ID查询失败" (clientGet env id)
  match esRes with
  | none => pure { List := some [], Total := 0, Page := 0, PageSize := 0, TotalPages := 0 }
  | some source =>
    match unmarshalArticle source with
    | .error e => Op.fail (.wrap "解析文章失败" e)
    | .ok art =>
      let item := FromArticle id art true
      pure { List := some [item], Total := 1, Page := 1, PageSize := 1, TotalPages := 1 }

/-- Filtered path of `GetArticleList`: query, paginated search, mapping of the hits
without content, page metadata. -/
def articleListFiltered (env : Env) (info : ArticleListReq) : Op ArticleListResp := do
  let req := buildArticleSearchRequest info
  let option : EsOption :=
    { pageInfo := info.pageInfo, Index := ArticleIndex, Request := req,
      SourceIncludes := [], IncludeContent := false }
  let (hits, total) ← EsPagination env option
  match FromHits hits false with
  | .error e => Op.fail (.wrap "结果映射失败" e)
  | .ok items =>
    let page := if info.pageInfo.Page < 1 then 1 else info.pageInfo.Page
    let pageSize := if info.pageInfo.PageSize < 1 then 10 else info.pageInfo.PageSize
    let totalPages := (wrapInt (total + pageSize - 1)).tdiv pageSize
    pure { List := items, Total := total, Page := page, PageSize := pageSize,
           TotalPages := totalPages }

/-- GetArticleList: by id when a non-empty id is given, filtered otherwise. -/
def GetArticleList (env : Env) (info : ArticleListReq) : Op ArticleListResp :=
  match info.ID with
  | some id => if id ≠ "" then articleListByID env id else articleListFiltered env info
  | none => articleListFiltered env info

/-! ## Notions used in the statements -/

/-- Calls made by a run that starts in `w` and ends in `w1`: the part of the log of
`w1` that was added to the log of `w`. -/
def callsSince (w w1 : World) : List Call :=
  w1.log.drop w.log.length

/-- Environment in which no collaborator call fails and no content has images. -/
def quietEnv : Env :=
  { now := "2024-05-01 10:00:00",
    newId := "id-new",
    fails := fun _ _ => false,
    findIllustrations := fun _ => some [],
    search := fun _ _ _ => ([], 0) }

/-- World with an empty index, no counter rows and every image unused. -/
def emptyWorld : World :=
  { index := [],
    rel := { categories := fun _ => none, tags := fun _ => none, images := fun _ => 0 },
    log := [] }

/-- Sample create request. -/
def sampleCreateReq : ArticleCreateReq :=
  { Cover := "c.png", Title := "Hello", Category := "go", Tags := some ["a", "b"],
    Abstract := "abs", Content := "text", VisibleRange := 1 }

/-- World in which the sample article has been created: one indexed document under
the id `id-new`, and the counter rows of its category and tags. -/
def storedWorld : World :=
  (ArticleCreate quietEnv sampleCreateReq emptyWorld).2

/-- Update request that repeats every field of the sample article. -/
def sampleUpdateSame : ArticleUpdateReq :=
  { ID := "id-new", Cover := "c.png", Title := "Hello", Category := "go",
    Tags := some ["a", "b"], Abstract := "abs", Content := "text", VisibleRange := 1 }

/-- Update request that repeats the sample article but for the visible range. -/
def sampleUpdateVisible : ArticleUpdateReq :=
  { ID := "id-new", Cover := "c.png", Title := "Hello", Category := "go",
    Tags := some ["a", "b"], Abstract := "abs", Content := "text", VisibleRange := 2 }

/-- Category counters after the reconciliation of `updateCategoryCounts` succeeded. -/
def categoriesAfterUpdate (c : Counter) (oldCategory newCategory : String) : Counter :=
  if oldCategory = newCategory then c
  else
    let c1 := if oldCategory ≠ "" then decOrDelete c oldCategory else c
    if newCategory ≠ "" then incOrCreate c1 newCategory else c1

/-- Tag counters after the reconciliation of `updateTagCounts` succeeded. -/
def tagsAfterUpdate (c : Counter) (oldTags newTags : List String) : Counter :=
  (DiffArrays oldTags newTags).1.foldl incOrCreate
    ((DiffArrays oldTags newTags).2.foldl decOrDelete c)

/-- World whose index holds one document, under `id-bad`, whose `views` member is a
string: the index accepts it (it coerces the value) but it does not decode into an
`Article`. -/
def badSourceWorld : World :=
  { index := [("id-bad", [("title", .str "t"), ("views", .str "5")])],
    rel := { categories := fun _ => none, tags := fun _ => none, images := fun _ => 0 },
    log := [] }

/-- List request that only carries an id. -/
def listById (id : String) : ArticleListReq :=
  { ID := some id, Title := none, Category := none, Tag := none, Abstract := none,
    VisibleRange := 0, pageInfo := { Page := 0, PageSize := 0 } }

/-- Environment in which no collaborator call fails but no content can be parsed for
images. -/
def parseFailEnv : Env :=
  { now := "2024-05-01 10:00:00",
    newId := "id-new",
    fails := fun _ _ => false,
    findIllustrations := fun _ => none,
    search := fun _ _ _ => ([], 0) }

/-- Environment that treats every content whose images cannot be extracted as a
content without images, and is otherwise the given one. -/
def Env.lenient (env : Env) : Env :=
  { env with findIllustrations := fun c => some ((env.findIllustrations c).getD []) }

/-- Row that holds a count: no row for 0. -/
def rowOf (n : Nat) : Option Nat :=
  if n = 0 then none else some n

/-- Does the indexed document reference the category name: it decodes into an article
with that category, and the name is not the empty one (an empty category means
uncategorised). -/
def refsCategory (name : String) (e : String × Doc) : Bool :=
  match unmarshalArticle e.2 with
  | .ok a => decide (name ≠ "" ∧ a.Category = name)
  | .error _ => false

/-- Does the indexed document reference the tag name: it decodes into an article whose
tag list contains the name. -/
def refsTag (name : String) (e : String × Doc) : Bool :=
  match unmarshalArticle e.2 with
  | .ok a => decide (name ∈ a.Tags.elems)
  | .error _ => false

/-- Counter invariant: every category counter and every tag counter is the number of
indexed articles that reference the name, and a name without reference has no row. -/
def CountersMatch (w : World) : Prop :=
  (∀ name, w.rel.categories name = rowOf (w.index.countP (refsCategory name))) ∧
  (∀ name, w.rel.tags name = rowOf (w.index.countP (refsTag name)))

/-- No indexed article lists a tag twice. -/
def TagsDistinct (w : World) : Prop :=
  ∀ e ∈ w.index, ∀ a, unmarshalArticle e.2 = .ok a → a.Tags.elems.Nodup

/-- The index holds at most one document per id. -/
def IdsDistinct (w : World) : Prop :=
  (w.index.map Prod.fst).Nodup

/-- Consistent world: the counter invariant holds, ids are unique in the index and no
indexed article lists a tag twice. -/
def Consistent (w : World) : Prop :=
  CountersMatch w ∧ IdsDistinct w ∧ TagsDistinct w

/-- Create request whose tag list names one tag twice. -/
def duplicateTagReq : ArticleCreateReq :=
  { Cover := "c.png", Title := "Twice", Category := "go", Tags := some ["a", "a"],
    Abstract := "abs", Content := "text", VisibleRange := 1 }

/-- Environment in which no collaborator call fails and the image extractor finds
`img1` in the first sample content and `img2` in the second. -/
def imageEnv : Env :=
  { quietEnv with
    findIllustrations := fun c =>
      if c = "see ![](img1)" then some ["img1"]
      else if c = "see ![](img2)" then some ["img2"]
      else some [] }

/-- Create request of an article whose content embeds `img1`. -/
def imageCreateReq : ArticleCreateReq :=
  { sampleCreateReq with Content := "see ![](img1)" }

/-- World in which the article with the image `img1` has been created. -/
def imageWorld : World :=
  (ArticleCreate imageEnv imageCreateReq emptyWorld).2

/-- Update request that keeps category, tags and cover of the stored article and
replaces the embedded image `img1` by `img2`. -/
def imageUpdateReq : ArticleUpdateReq :=
  { sampleUpdateSame with Content := "see ![](img2)" }

/-- Value of a text filter of a list request when it is supplied: present and not
blank after trimming; the value itself is the one of the request, untrimmed. -/
def suppliedText (o : Option String) : Option String :=
  match o with
  | some s => if TrimSpace s ≠ "" then some s else none
  | none => none

/-- Clauses the must group is specified to hold: the match on the title, then the
match on the abstract, each when supplied. -/
def specMustClauses (info : ArticleListReq) : List Clause :=
  ((suppliedText info.Title).map (fun s => Clause.matchQ "title" s)).toList ++
    ((suppliedText info.Abstract).map (fun s => Clause.matchQ "abstract" s)).toList

/-- Clauses the filter group is specified to hold: the term on the category, then the
term on the tag, each when supplied, then the term on the visible range when it is not
zero. -/
def specFilterClauses (info : ArticleListReq) : List Clause :=
  ((suppliedText info.Category).map (fun s => Clause.term "category" (.str s))).toList ++
    ((suppliedText info.Tag).map (fun s => Clause.term "tags" (.str s))).toList ++
    (if info.VisibleRange ≠ 0 then [Clause.term "visible_range" (.uint info.VisibleRange)]
     else [])

/-- Group of clauses as a slice: nil when there is no clause. -/
def sliceOfClauses (l : List Clause) : Slice Clause :=
  if l = [] then none else some l

/-- Environment in which no collaborator call fails and every search returns the given
hits and total. -/
def searchEnv (hits : List Hit) (total : Int) : Env :=
  { quietEnv with search := fun _ _ _ => (hits, total) }

/-- List request without id and without filter, for the given page and page size. -/
def pageReq (page pageSize : Int) : ArticleListReq :=
  { ID := none, Title := none, Category := none, Tag := none, Abstract := none,
    VisibleRange := 0, pageInfo := { Page := page, PageSize := pageSize } }

/-- Fields the listing asks the index for: every field but the content. -/
def listingFields : List String :=
  ["created_at", "updated_at", "cover", "title", "keyword", "category", "tags", "abstract",
    "visible_range", "views", "comments", "likes"]

/-! ## Basic facts about operations -/

theorem bind_ok {α β : Type} (m : Op α) (f : α → Op β) (w w2 : World) (b : β) :
    (m >>= f) w = (.ok b, w2) ↔ ∃ a w1, m w = (.ok a, w1) ∧ f a w1 = (.ok b, w2) := by
  show Op.bind m f w = _ ↔ _
  unfold Op.bind
  rcases h : m w with ⟨r, w1⟩
  cases r with
  | ok a =>
    simp only [Prod.mk.injEq, Except.ok.injEq]
    constructor
    · intro hf
      exact ⟨a, w1, ⟨rfl, rfl⟩, hf⟩
    · rintro ⟨a1, w3, ⟨rfl, rfl⟩, hf⟩
      exact hf
  | error e => simp

theorem wrapErr_ok {α : Type} (step : String) (m : Op α) (w w1 : World) (a : α) :
    Op.wrapErr step m w = (.ok a, w1) ↔ m w = (.ok a, w1) := by
  unfold Op.wrapErr
  rcases h : m w with ⟨r, w2⟩
  cases r with
  | ok a => simp
  | error e => simp

theorem Transaction_ok (f : Op Unit) (w w1 : World) (u : Unit) :
    Transaction f w = (.ok u, w1) ↔ f w = (.ok u, w1) := by
  unfold Transaction
  rcases h : f w with ⟨r, w2⟩
  cases r with
  | ok a => simp
  | error e => simp

theorem invoke_ok (env : Env) (c : Call) (effect : World → World) (w w1 : World) (u : Unit) :
    invoke env c effect w = (.ok u, w1) ↔
      env.fails w.log c = false ∧ w1 = effect (w.record c) := by
  unfold invoke
  by_cases h : env.fails w.log c = true
  · simp [h]
  · simp [h]
    exact eq_comm

theorem pure_ok {α : Type} (a b : α) (w w1 : World) :
    (Pure.pure a : Op α) w = (.ok b, w1) ↔ b = a ∧ w1 = w := by
  show Op.pure a w = _ ↔ _
  unfold Op.pure
  simp
  constructor
  · rintro ⟨h1, h2⟩; exact ⟨h1.symm, h2.symm⟩
  · rintro ⟨h1, h2⟩; exact ⟨h1.symm, h2.symm⟩

/-! ## Facts about documents -/

theorem Except.bind_ok_iff {ε α β : Type} (x : Except ε α) (f : α → Except ε β) (b : β) :
    (x >>= f) = .ok b ↔ ∃ a, x = .ok a ∧ f a = .ok b := by
  cases x with
  | error e => simp [bind, Except.bind]
  | ok a => simp [bind, Except.bind]

theorem unmarshalArticle_ok_iff (d : Doc) (a : Article) :
    unmarshalArticle d = .ok a ↔
      decodeString d "created_at" = .ok a.CreatedAt ∧
      decodeString d "updated_at" = .ok a.UpdatedAt ∧
      decodeString d "cover" = .ok a.Cover ∧
      decodeString d "title" = .ok a.Title ∧
      decodeString d "keyword" = .ok a.Keyword ∧
      decodeString d "category" = .ok a.Category ∧
      decodeStrings d "tags" = .ok a.Tags ∧
      decodeString d "abstract" = .ok a.Abstract ∧
      decodeString d "content" = .ok a.Content ∧
      decodeUint d "visibleRange" = .ok a.VisibleRange ∧
      decodeInt d "views" = .ok a.Views ∧
      decodeInt d "comments" = .ok a.Comments ∧
      decodeInt d "likes" = .ok a.Likes := by
  unfold unmarshalArticle
  simp only [Except.bind_ok_iff]
  constructor
  · rintro ⟨x1, h1, x2, h2, x3, h3, x4, h4, x5, h5, x6, h6, x7, h7, x8, h8, x9, h9, x10, h10,
      x11, h11, x12, h12, x13, h13, h⟩
    cases h
    exact ⟨h1, h2, h3, h4, h5, h6, h7, h8, h9, h10, h11, h12, h13⟩
  · rintro ⟨h1, h2, h3, h4, h5, h6, h7, h8, h9, h10, h11, h12, h13⟩
    exact ⟨_, h1, _, h2, _, h3, _, h4, _, h5, _, h6, _, h7, _, h8, _, h9, _, h10,
      _, h11, _, h12, _, h13, rfl⟩

theorem lookup_cons_eq (d : Doc) (k k2 : String) (x : JVal) :
    List.lookup k2 ((k, x) :: d) = if k2 = k then some x else List.lookup k2 d := by
  by_cases h : k2 = k
  · subst h
    simp [List.lookup]
  · have hb : (k2 == k) = false := by simpa using h
    simp [List.lookup, hb, h]

theorem lookup_map_set (d : Doc) (key key2 : String) (v : JVal) :
    List.lookup key2 (d.map (fun kv => if kv.1 = key then (key, v) else kv)) =
      if key2 = key then (List.lookup key d).map (fun _ => v) else List.lookup key2 d := by
  induction d with
  | nil => simp [List.lookup]
  | cons e rest ih =>
    rcases e with ⟨k, x⟩
    by_cases h1 : k = key
    · subst h1
      simp only [List.map_cons, if_true, lookup_cons_eq, ih]
      by_cases h2 : key2 = k
      · subst h2
        simp
      · simp [h2]
    · simp only [List.map_cons, h1, if_false, lookup_cons_eq, ih]
      by_cases h2 : key2 = key
      · subst h2
        have h3 : ¬ key2 = k := fun h => h1 h.symm
        simp [h3, h1]
      · simp [h2]

theorem lookup_append_single (d : Doc) (key key2 : String) (v : JVal) :
    List.lookup key2 (d ++ [(key, v)]) =
      match List.lookup key2 d with
      | some x => some x
      | none => if key2 = key then some v else none := by
  induction d with
  | nil =>
    rw [List.nil_append, lookup_cons_eq]
    simp [List.lookup]
  | cons e rest ih =>
    rcases e with ⟨k, x⟩
    simp only [List.cons_append, lookup_cons_eq, ih]
    by_cases h : key2 = k
    · simp [h]
    · simp [h]

theorem Doc.lookup_set (d : Doc) (key key2 : String) (v : JVal) :
    (d.set key v).lookup key2 = if key2 = key then some v else d.lookup key2 := by
  unfold Doc.set
  by_cases hk : (List.lookup key d).isSome = true
  · rw [if_pos hk, lookup_map_set]
    by_cases h2 : key2 = key
    · obtain ⟨x, hx⟩ := Option.isSome_iff_exists.mp hk
      simp [h2, hx]
    · simp [h2]
  · rw [if_neg hk, lookup_append_single]
    by_cases h2 : key2 = key
    · subst h2
      have : List.lookup key2 d = none := by
        cases h : List.lookup key2 d with
        | none => rfl
        | some x => simp [h] at hk
      simp [this]
    · cases h : List.lookup key2 d <;> simp [h2]

theorem lookup_merge_update (d : Doc) (p : ArticleUpdateDoc) (key : String) :
    (mergeDoc d (marshalUpdate p)).lookup key =
      if key = "content" then some (.str p.Content)
      else if key = "visible_range" then some (.num p.VisibleRange)
      else if key = "abstract" then some (.str p.Abstract)
      else if key = "tags" then some (encodeStrings p.Tags)
      else if key = "category" then some (.str p.Category)
      else if key = "keyword" then some (.str p.Keyword)
      else if key = "title" then some (.str p.Title)
      else if key = "cover" then some (.str p.Cover)
      else if key = "updated_at" then some (.str p.UpdatedAt)
      else d.lookup key := by
  simp only [mergeDoc, marshalUpdate, List.foldl, Doc.lookup_set]

theorem unmarshal_marshalArticle (a : Article) (hv : (a.VisibleRange : Int) < uintBound)
    (h1 : -intBound ≤ a.Views ∧ a.Views < intBound)
    (h2 : -intBound ≤ a.Comments ∧ a.Comments < intBound)
    (h3 : -intBound ≤ a.Likes ∧ a.Likes < intBound) :
    unmarshalArticle (marshalArticle a) = .ok a := by
  rw [unmarshalArticle_ok_iff]
  refine ⟨?_, ?_, ?_, ?_, ?_, ?_, ?_, ?_, ?_, ?_, ?_, ?_, ?_⟩
  · simp [marshalArticle, decodeString, List.lookup]
  · simp [marshalArticle, decodeString, List.lookup]
  · simp [marshalArticle, decodeString, List.lookup]
  · simp [marshalArticle, decodeString, List.lookup]
  · simp [marshalArticle, decodeString, List.lookup]
  · simp [marshalArticle, decodeString, List.lookup]
  · cases h : a.Tags <;> simp [marshalArticle, decodeStrings, List.lookup, encodeStrings, h]
  · simp [marshalArticle, decodeString, List.lookup]
  · simp [marshalArticle, decodeString, List.lookup]
  · simp [marshalArticle, decodeUint, List.lookup, hv]
  · simp [marshalArticle, decodeInt, List.lookup, h1]
  · simp [marshalArticle, decodeInt, List.lookup, h2]
  · simp [marshalArticle, decodeInt, List.lookup, h3]

/-! ## Facts about runs -/

theorem bind_apply {α β : Type} (m : Op α) (f : α → Op β) (w : World) :
    (m >>= f) w = match m w with
      | (.ok a, w1) => f a w1
      | (.error e, w1) => (.error e, w1) := rfl

@[simp] theorem pure_apply {α : Type} (a : α) (w : World) :
    (Pure.pure a : Op α) w = (.ok a, w) := rfl

@[simp] theorem fail_apply {α : Type} (e : Err) (w : World) :
    (Op.fail e : Op α) w = (.error e, w) := rfl

theorem Exists_world (env : Env) (title : String) (w : World) :
    (Exists env title w).2 = w.record (.titleExists title) := by
  unfold Exists
  split_ifs <;> rfl

theorem step_apply (env : Env) (step : String) (c : Call) (effect : World → World)
    (w : World) :
    Op.wrapErr step (invoke env c effect) w =
      if env.fails w.log c then (.error (.wrap step .dependency), w.record c)
      else (.ok (), effect (w.record c)) := by
  simp only [Op.wrapErr, invoke]
  split_ifs <;> rfl

/-- Closed form of `ArticleCreate`: the outcome and the final world for each way the
three calls inside the transaction can go. -/
theorem ArticleCreate_eq (env : Env) (req : ArticleCreateReq) (w : World) :
    ArticleCreate env req w =
      let a := articleToCreate env.now req
      let l0 := w.log ++ [Call.titleExists req.Title]
      let l1 := if a.Category ≠ "" then l0 ++ [Call.incOrCreateCategory a.Category] else l0
      let cats := if a.Category ≠ "" then incOrCreate w.rel.categories a.Category
        else w.rel.categories
      if a.Category ≠ "" ∧ env.fails l0 (.incOrCreateCategory a.Category) = true then
        (.error (.wrap "更新分类计数失败" .dependency),
          { index := w.index, rel := w.rel, log := l1 })
      else if env.fails l1 (.addOrIncTag a.Tags.elems) = true then
        (.error (.wrap "更新标签计数失败" .dependency),
          { index := w.index, rel := w.rel, log := l1 ++ [.addOrIncTag a.Tags.elems] })
      else if env.fails (l1 ++ [.addOrIncTag a.Tags.elems]) (.esCreate a) = true then
        (.error (.wrap "创建文章失败" .dependency),
          { index := w.index, rel := w.rel,
            log := l1 ++ [.addOrIncTag a.Tags.elems, .esCreate a] })
      else
        (.ok (),
          { index := w.index ++ [(env.newId, marshalArticle a)],
            rel := { categories := cats,
                     tags := a.Tags.elems.foldl incOrCreate w.rel.tags,
                     images := w.rel.images },
            log := l1 ++ [.addOrIncTag a.Tags.elems, .esCreate a] }) := by
  unfold ArticleCreate
  simp only [Exists_world, Transaction, IncOrCreateCategory, AddOrIncTag, CreateArticle,
    bind_apply, ite_apply, step_apply, pure_apply]
  by_cases hc : (articleToCreate env.now req).Category ≠ ""
  · by_cases h1 : env.fails (w.log ++ [Call.titleExists req.Title])
        (.incOrCreateCategory (articleToCreate env.now req).Category) = true
    · simp [hc, h1, World.record]
    · by_cases h2 : env.fails (w.log ++ [Call.titleExists req.Title,
          .incOrCreateCategory (articleToCreate env.now req).Category])
          (.addOrIncTag (articleToCreate env.now req).Tags.elems) = true
      · simp [hc, h1, h2, World.record, World.mapCategories]
      · by_cases h3 : env.fails (w.log ++ [Call.titleExists req.Title,
          .incOrCreateCategory (articleToCreate env.now req).Category,
          .addOrIncTag (articleToCreate env.now req).Tags.elems])
          (.esCreate (articleToCreate env.now req)) = true
        · simp [hc, h1, h2, h3, World.record, World.mapCategories, World.mapTags]
        · simp [hc, h1, h2, h3, World.record, World.mapCategories, World.mapTags]
  · by_cases h2 : env.fails (w.log ++ [Call.titleExists req.Title])
          (.addOrIncTag (articleToCreate env.now req).Tags.elems) = true
    · simp [hc, h2, World.record]
    · by_cases h3 : env.fails (w.log ++ [Call.titleExists req.Title,
          .addOrIncTag (articleToCreate env.now req).Tags.elems])
          (.esCreate (articleToCreate env.now req)) = true
      · simp [hc, h2, h3, World.record, World.mapTags]
      · simp [hc, h2, h3, World.record, World.mapTags]

theorem Get_eq (env : Env) (id : String) (w : World) :
    Get env id w =
      if env.fails w.log (.esGet id) = true then (.error .dependency, w.record (.esGet id))
      else match w.index.lookup id with
        | none => (.error .notFound, w.record (.esGet id))
        | some d =>
          match unmarshalArticle d with
          | .ok a => (.ok a, w.record (.esGet id))
          | .error e => (.error e, w.record (.esGet id)) := by
  unfold Get clientGet
  simp only [bind_apply]
  by_cases h : env.fails w.log (.esGet id) = true
  · simp [h]
  · simp only [h]
    cases h1 : List.lookup id w.index with
    | none => simp
    | some d =>
      cases h2 : unmarshalArticle d with
      | ok a => simp [h2]
      | error e => simp [h2]

theorem lookup_append_new {α : Type} (l : List (String × α)) (k : String) (x : α)
    (h : l.lookup k = none) : (l ++ [(k, x)]).lookup k = some x := by
  induction l with
  | nil => simp [List.lookup]
  | cons e rest ih =>
    rcases e with ⟨k2, y⟩
    by_cases hk : k = k2
    · subst hk
      simp [List.lookup] at h
    · have hb : (k == k2) = false := by simpa using hk
      simp only [List.lookup, hb] at h
      simp only [List.cons_append, List.lookup, hb]
      exact ih h

theorem ArticleCreate_of_ok (env : Env) (req : ArticleCreateReq) (w : World)
    (h : (ArticleCreate env req w).1 = .ok ()) :
    (ArticleCreate env req w).2.index =
        w.index ++ [(env.newId, marshalArticle (articleToCreate env.now req))] ∧
    (ArticleCreate env req w).2.rel.categories =
        (if req.Category ≠ "" then incOrCreate w.rel.categories req.Category
          else w.rel.categories) ∧
    (ArticleCreate env req w).2.rel.tags = req.Tags.elems.foldl incOrCreate w.rel.tags := by
  have hc : (articleToCreate env.now req).Category = req.Category := rfl
  have ht : (articleToCreate env.now req).Tags = req.Tags := rfl
  rw [ArticleCreate_eq] at h ⊢
  simp only [hc, ht] at h ⊢
  split_ifs at h ⊢ <;> simp at h ⊢

/-- C4: for every create request the document `ArticleCreate` hands to the index has
`keyword = title`, `createdAt = updatedAt`, the request's cover, title, category, tags,
abstract, content and visibleRange, and zero views, comments and likes; serialising it
with the `Article` JSON tags and decoding it the way `Get` does gives the same document
back, so that a by-id read right after a successful create returns it. When no
collaborator call fails the create succeeds and hands that document to the index, and
the by-id read of the new id then returns it. -/
theorem create_then_read_back (env : Env) (req : ArticleCreateReq) (w : World)
    (hv : (req.VisibleRange : Int) < uintBound) :
    let a := articleToCreate env.now req
    let r := ArticleCreate env req w
    (∀ b, Call.esCreate b ∈ callsSince w r.2 → b = a) ∧
    (r.1 = .ok () → Call.esCreate a ∈ callsSince w r.2) ∧
    a.Keyword = a.Title ∧ a.CreatedAt = a.UpdatedAt ∧
    a.Cover = req.Cover ∧ a.Title = req.Title ∧ a.Category = req.Category ∧
    a.Tags = req.Tags ∧ a.Abstract = req.Abstract ∧ a.Content = req.Content ∧
    a.VisibleRange = req.VisibleRange ∧ a.Views = 0 ∧ a.Comments = 0 ∧ a.Likes = 0 ∧
    unmarshalArticle (marshalArticle a) = .ok a ∧
    (r.1 = .ok () → w.index.lookup env.newId = none →
      ∀ env2 : Env, env2.fails r.2.log (.esGet env.newId) = false →
        (Get env2 env.newId r.2).1 = .ok a) ∧
    ((∀ l c, env.fails l c = false) →
      r.1 = .ok () ∧ Call.esCreate a ∈ callsSince w r.2) ∧
    ((∀ l c, env.fails l c = false) → w.index.lookup env.newId = none →
      (Get env env.newId r.2).1 = .ok a) := by
  intro a r
  have hrt : unmarshalArticle (marshalArticle a) = .ok a := by
    apply unmarshal_marshalArticle
    · exact hv
    · simp [a, articleToCreate, intBound]
    · simp [a, articleToCreate, intBound]
    · simp [a, articleToCreate, intBound]
  have hread : r.1 = .ok () → w.index.lookup env.newId = none →
      ∀ env2 : Env, env2.fails r.2.log (.esGet env.newId) = false →
        (Get env2 env.newId r.2).1 = .ok a := by
    intro hok hnew env2 hget
    rw [Get_eq, if_neg (by simp [hget]), (ArticleCreate_of_ok env req w hok).1,
      lookup_append_new _ _ _ hnew]
    simp only [hrt]
  have hlive : (∀ l c, env.fails l c = false) → r.1 = .ok () := by
    intro hq
    simp only [r, ArticleCreate_eq, hq]
    simp
  have hmade : r.1 = .ok () → Call.esCreate a ∈ callsSince w r.2 := by
    simp only [r, ArticleCreate_eq]
    split_ifs <;> simp [callsSince, a]
  refine ⟨?_, hmade, rfl, rfl, rfl, rfl, rfl, rfl, rfl, rfl, rfl, rfl, rfl, rfl, hrt, hread,
    ?_, ?_⟩
  · intro b
    simp only [r, ArticleCreate_eq]
    split_ifs <;> simp [callsSince, a]
  · intro hq
    exact ⟨hlive hq, hmade (hlive hq)⟩
  · intro hq hnew
    exact hread (hlive hq) hnew env (hq _ _)

theorem create_then_read_back_witness :
    (sampleCreateReq.VisibleRange : Int) < uintBound ∧
    (∀ l c, quietEnv.fails l c = false) ∧
    emptyWorld.index.lookup quietEnv.newId = none ∧
    (ArticleCreate quietEnv sampleCreateReq emptyWorld).1 = .ok () ∧
    Call.esCreate (articleToCreate quietEnv.now sampleCreateReq) ∈
      callsSince emptyWorld (ArticleCreate quietEnv sampleCreateReq emptyWorld).2 ∧
    (Get quietEnv "id-new" (ArticleCreate quietEnv sampleCreateReq emptyWorld).2).1 =
      .ok { CreatedAt := "2024-05-01 10:00:00", UpdatedAt := "2024-05-01 10:00:00",
            Cover := "c.png", Title := "Hello", Keyword := "Hello", Category := "go",
            Tags := some ["a", "b"], Abstract := "abs", Content := "text",
            VisibleRange := 1, Views := 0, Comments := 0, Likes := 0 } ∧
    unmarshalArticle (marshalArticle (articleToCreate quietEnv.now sampleCreateReq)) =
      .ok (articleToCreate quietEnv.now sampleCreateReq) :=
  have h := create_then_read_back quietEnv sampleCreateReq emptyWorld (by decide)
  ⟨by decide, fun _ _ => rfl, rfl,
    (h.2.2.2.2.2.2.2.2.2.2.2.2.2.2.2.2.1 (fun _ _ => rfl)).1,
    (h.2.2.2.2.2.2.2.2.2.2.2.2.2.2.2.2.1 (fun _ _ => rfl)).2,
    h.2.2.2.2.2.2.2.2.2.2.2.2.2.2.2.2.2 (fun _ _ => rfl) rfl,
    h.2.2.2.2.2.2.2.2.2.2.2.2.2.2.1⟩

/-- C5: in `ArticleCreate` the index write is the last step. If the category counter
update fails, or the tag counter update fails, `ArticleCreate` returns an error and no
document-create call is made. Whenever a document-create call is made, the calls of the
run are the title probe, the category increment (present exactly when the category is
non-empty), the tag update and then the create call, and neither counter update failed.
A category increment is issued only for a non-empty category. -/
theorem create_index_write_is_last (env : Env) (req : ArticleCreateReq) (w : World) :
    let a := articleToCreate env.now req
    let r := ArticleCreate env req w
    let l0 := w.log ++ [Call.titleExists req.Title]
    let l1 := if req.Category ≠ "" then l0 ++ [Call.incOrCreateCategory req.Category] else l0
    ((req.Category ≠ "" ∧ env.fails l0 (.incOrCreateCategory req.Category) = true) →
      (∃ e, r.1 = .error e) ∧ ∀ b, Call.esCreate b ∉ callsSince w r.2) ∧
    (env.fails l1 (.addOrIncTag req.Tags.elems) = true →
      (∃ e, r.1 = .error e) ∧ ∀ b, Call.esCreate b ∉ callsSince w r.2) ∧
    (∀ b, Call.esCreate b ∈ callsSince w r.2 →
      b = a ∧
      callsSince w r.2 =
        Call.titleExists req.Title ::
          ((if req.Category ≠ "" then [Call.incOrCreateCategory req.Category] else []) ++
            [Call.addOrIncTag req.Tags.elems, Call.esCreate a]) ∧
      (req.Category ≠ "" → env.fails l0 (.incOrCreateCategory req.Category) = false) ∧
      env.fails l1 (.addOrIncTag req.Tags.elems) = false) ∧
    (∀ n, Call.incOrCreateCategory n ∈ callsSince w r.2 →
      req.Category ≠ "" ∧ n = req.Category) := by
  intro a r l0 l1
  have hc : (articleToCreate env.now req).Category = req.Category := rfl
  have ht : (articleToCreate env.now req).Tags = req.Tags := rfl
  simp only [r, l0, l1, a, ArticleCreate_eq, hc, ht]
  refine ⟨?_, ?_, ?_, ?_⟩
  · rintro ⟨h1, h2⟩
    simp [h1, h2, callsSince]
  · intro h2
    by_cases h1 : req.Category ≠ "" ∧
        env.fails (w.log ++ [Call.titleExists req.Title])
          (.incOrCreateCategory req.Category) = true
    · simp [h1, callsSince]
    · by_cases h0 : req.Category ≠ ""
      · simp [h0] at h1 h2
        simp [h0, h1, h2, callsSince]
      · simp [h0] at h2
        simp [h0, h2, callsSince]
  · intro b
    by_cases h0 : req.Category = "" <;> split_ifs <;> simp_all [callsSince]
  · intro n
    by_cases h0 : req.Category = "" <;> split_ifs <;> simp_all [callsSince]

/-! ## Update with unchanged fields -/

theorem DiffArrays_self (l : List String) : DiffArrays l l = ([], []) := by
  simp [DiffArrays]

theorem updateCategoryCounts_same (env : Env) (x : String) (w : World) :
    updateCategoryCounts env x x w = (.ok (), w) := by
  simp [updateCategoryCounts]

theorem updateTagCounts_same (env : Env) (l : List String) (w : World) :
    updateTagCounts env l l w = (.ok (), w) := by
  simp [updateTagCounts, DiffArrays_self, bind_apply]

theorem updateCoverCategory_same (env : Env) (x : String) (w : World) :
    updateCoverCategory env x x w = (.ok (), w) := by
  simp [updateCoverCategory]

theorem updateIllustrationsCategory_same (env : Env) (x : String) (w : World) :
    updateIllustrationsCategory env x x w = (.ok (), w) := by
  simp [updateIllustrationsCategory, DiffArrays_self, bind_apply]

theorem Update_eq (env : Env) (step : String) (id : String) (doc : Doc) (w : World) :
    Op.wrapErr step (Update env id doc) w =
      if env.fails w.log (.esUpdate id doc) = true then
        (.error (.wrap step .dependency), w.record (.esUpdate id doc))
      else match w.index.lookup id with
        | none => (.error (.wrap step .notFound), w.record (.esUpdate id doc))
        | some _ =>
          (.ok (), { w.record (.esUpdate id doc) with
                     index := replaceDoc w.index id (fun d => mergeDoc d doc) }) := by
  unfold Op.wrapErr Update
  by_cases h : env.fails w.log (.esUpdate id doc) = true
  · simp [h]
  · simp only [h]
    cases h1 : List.lookup id w.index <;> simp

theorem Get_wrap_eq (env : Env) (step : String) (id : String) (w : World) :
    Op.wrapErr step (Get env id) w =
      if env.fails w.log (.esGet id) = true then
        (.error (.wrap step .dependency), w.record (.esGet id))
      else match w.index.lookup id with
        | none => (.error (.wrap step .notFound), w.record (.esGet id))
        | some d =>
          match unmarshalArticle d with
          | .ok a => (.ok a, w.record (.esGet id))
          | .error e => (.error (.wrap step e), w.record (.esGet id)) := by
  unfold Op.wrapErr
  rw [Get_eq]
  by_cases h : env.fails w.log (.esGet id) = true
  · simp [h]
  · simp only [h]
    cases h1 : List.lookup id w.index with
    | none => simp
    | some d => cases h2 : unmarshalArticle d <;> simp [h2]


/-- Closed form of `UpdateArticle` on a stored article that the request repeats. -/
theorem UpdateArticle_same_eq (env : Env) (req : ArticleUpdateReq) (w : World) (d : Doc)
    (old : Article) (hd : w.index.lookup req.ID = some d) (hold : unmarshalArticle d = .ok old)
    (hcover : req.Cover = old.Cover) (hcat : req.Category = old.Category)
    (htags : req.Tags = old.Tags) (hcontent : req.Content = old.Content) :
    UpdateArticle env req w =
      let payload := marshalUpdate (articleToUpdate env.now req)
      if env.fails w.log (.esGet req.ID) = true then
        (.error (.wrap "获取旧文章失败" .dependency),
          { index := w.index, rel := w.rel, log := w.log ++ [.esGet req.ID] })
      else if env.fails (w.log ++ [.esGet req.ID]) (.esUpdate req.ID payload) = true then
        (.error (.wrap "更新文章内容失败" .dependency),
          { index := w.index, rel := w.rel,
            log := w.log ++ [.esGet req.ID, .esUpdate req.ID payload] })
      else
        (.ok (),
          { index := replaceDoc w.index req.ID (fun x => mergeDoc x payload), rel := w.rel,
            log := w.log ++ [.esGet req.ID, .esUpdate req.ID payload] }) := by
  unfold UpdateArticle
  have h1 : (articleToUpdate env.now req).Category = old.Category := hcat
  have h2 : (articleToUpdate env.now req).Tags = old.Tags := htags
  have h3 : (articleToUpdate env.now req).Cover = old.Cover := hcover
  have h4 : (articleToUpdate env.now req).Content = old.Content := hcontent
  by_cases hg : env.fails w.log (.esGet req.ID) = true
  · simp [Transaction, bind_apply, Get_wrap_eq, hg, World.record]
  · simp only [Transaction, bind_apply, Get_wrap_eq, hd, hold, h1, h2, h3, h4, hg,
      Bool.false_eq_true, if_false]
    simp only [updateCategoryCounts_same, updateTagCounts_same, updateCoverCategory_same,
      updateIllustrationsCategory_same]
    simp only [Update_eq]
    by_cases hf : env.fails (w.log ++ [.esGet req.ID])
        (.esUpdate req.ID (marshalUpdate (articleToUpdate env.now req))) = true
    · simp [hf, World.record]
    · simp [hf, World.record, hd]

/-- C7: an `UpdateArticle` whose cover, title, category, tags, abstract, content and
visibleRange are those of the stored article makes no call besides reading the article
and writing the document: no increment or decrement of a category or tag counter and no
image reclassification, neither for the cover nor for an illustration. -/
theorem update_identical_is_silent (env : Env) (req : ArticleUpdateReq) (w : World)
    (d : Doc) (old : Article)
    (hd : w.index.lookup req.ID = some d) (hold : unmarshalArticle d = .ok old)
    (hcover : req.Cover = old.Cover) (_htitle : req.Title = old.Title)
    (hcat : req.Category = old.Category) (htags : req.Tags = old.Tags)
    (_habs : req.Abstract = old.Abstract) (hcontent : req.Content = old.Content)
    (_hvr : req.VisibleRange = old.VisibleRange) :
    let calls := callsSince w (UpdateArticle env req w).2
    calls <+: [Call.esGet req.ID,
      Call.esUpdate req.ID (marshalUpdate (articleToUpdate env.now req))] ∧
    (∀ n, Call.incOrCreateCategory n ∉ calls) ∧
    (∀ n, Call.decOrDeleteCategory n ∉ calls) ∧
    (∀ l, Call.addOrIncTag l ∉ calls) ∧
    (∀ l, Call.decOrDeleteTag l ∉ calls) ∧
    (∀ l, Call.initImagesCategory l ∉ calls) ∧
    (∀ l k, Call.changeImagesCategory l k ∉ calls) := by
  intro calls
  have hpre : calls <+: [Call.esGet req.ID,
      Call.esUpdate req.ID (marshalUpdate (articleToUpdate env.now req))] := by
    simp only [calls, UpdateArticle_same_eq env req w d old hd hold hcover hcat htags hcontent]
    split_ifs
    · simp [callsSince]
    · simp [callsSince]
    · simp [callsSince]
  have hmem : ∀ c ∈ calls, c = Call.esGet req.ID ∨
      c = Call.esUpdate req.ID (marshalUpdate (articleToUpdate env.now req)) := by
    intro c hc
    have := hpre.subset hc
    simpa using this
  refine ⟨hpre, ?_, ?_, ?_, ?_, ?_, ?_⟩ <;> intros <;> intro hc <;>
    rcases hmem _ hc with h | h <;> cases h

theorem update_identical_is_silent_witness :
    storedWorld.index.lookup sampleUpdateSame.ID =
      some (marshalArticle (articleToCreate quietEnv.now sampleCreateReq)) ∧
    unmarshalArticle (marshalArticle (articleToCreate quietEnv.now sampleCreateReq)) =
      .ok (articleToCreate quietEnv.now sampleCreateReq) ∧
    ∀ l, Call.addOrIncTag l ∉
      callsSince storedWorld (UpdateArticle quietEnv sampleUpdateSame storedWorld).2 :=
  ⟨by rfl, by rfl,
    (update_identical_is_silent quietEnv sampleUpdateSame storedWorld
      (marshalArticle (articleToCreate quietEnv.now sampleCreateReq))
      (articleToCreate quietEnv.now sampleCreateReq) (by rfl) (by rfl)
      rfl rfl rfl rfl rfl rfl rfl).2.2.2.1⟩

/-- C6: a stored article whose visible range is 1 is updated with a request whose
visible range is 2; the update succeeds, the stored document then carries the member
`visible_range` with 2 next to the member `visibleRange` with 1, and the by-id read
still returns visible range 1, not the value of the request. -/
theorem update_visible_range_not_read_back :
    (UpdateArticle quietEnv sampleUpdateVisible storedWorld).1 = .ok () ∧
    sampleUpdateVisible.VisibleRange = 2 ∧
    ((UpdateArticle quietEnv sampleUpdateVisible storedWorld).2.index.lookup "id-new").map
      (fun d => (d.lookup "visible_range", d.lookup "visibleRange")) =
        some (some (.num 2), some (.num 1)) ∧
    (Get quietEnv "id-new" (UpdateArticle quietEnv sampleUpdateVisible storedWorld).2).1 =
      .ok { articleToCreate quietEnv.now sampleCreateReq with VisibleRange := 1 } := by
  refine ⟨by rfl, by rfl, by rfl, by rfl⟩

theorem step_ok (env : Env) (step : String) (c : Call) (effect : World → World)
    (w w1 : World) (u : Unit) :
    Op.wrapErr step (invoke env c effect) w = (.ok u, w1) ↔
      env.fails w.log c = false ∧ w1 = effect (w.record c) := by
  rw [wrapErr_ok, invoke_ok]

theorem guard_step_ok (c : Prop) [Decidable c] (env : Env) (step : String) (call : Call)
    (effect : World → World) (f : Op Unit) (w w1 : World) (u : Unit) :
    (do
      if c then
        Op.wrapErr step (invoke env call effect)
      f) w = (.ok u, w1) ↔
      (c → env.fails w.log call = false) ∧
      f (if c then effect (w.record call) else w) = (.ok u, w1) := by
  by_cases hc : c
  · simp only [hc, if_true, bind_ok, step_ok, true_implies]
    constructor
    · rintro ⟨a, w2, ⟨hf, rfl⟩, h⟩
      exact ⟨hf, h⟩
    · rintro ⟨hf, h⟩
      exact ⟨(), _, ⟨hf, rfl⟩, h⟩
  · simp only [hc, if_false, bind_ok, pure_ok, false_implies, true_and]
    constructor
    · rintro ⟨a, w2, hw, h⟩
      subst hw
      exact h
    · intro h
      exact ⟨PUnit.unit, w, by simp, h⟩

theorem updateCategoryCounts_ok (env : Env) (o n : String) (w w1 : World) (u : Unit)
    (h : updateCategoryCounts env o n w = (.ok u, w1)) :
    w1.index = w.index ∧ w1.rel.tags = w.rel.tags ∧
    w1.rel.categories = categoriesAfterUpdate w.rel.categories o n := by
  unfold updateCategoryCounts at h
  unfold categoriesAfterUpdate
  by_cases h0 : o = n
  · simp only [h0, if_true, pure_ok] at h
    simp [h0, h.2]
  · simp only [h0, if_false, DecOrDeleteCategory, IncOrCreateCategory, guard_step_ok,
      pure_ok] at h
    obtain ⟨-, -, -, rfl⟩ := h
    simp only [h0, if_false]
    split_ifs <;> simp [World.record, World.mapCategories]

theorem updateTagCounts_ok (env : Env) (o n : List String) (w w1 : World) (u : Unit)
    (h : updateTagCounts env o n w = (.ok u, w1)) :
    w1.index = w.index ∧ w1.rel.categories = w.rel.categories ∧
    w1.rel.tags = tagsAfterUpdate w.rel.tags o n := by
  unfold updateTagCounts at h
  unfold tagsAfterUpdate
  simp only [DecOrDeleteTag, AddOrIncTag, guard_step_ok, pure_ok] at h
  obtain ⟨-, -, -, rfl⟩ := h
  split_ifs with h1 h2 h2
  · simp [World.record, World.mapTags]
  · have : (DiffArrays o n).2 = [] := by simpa using h2
    simp [World.record, World.mapTags, this]
  · have : (DiffArrays o n).1 = [] := by simpa using h1
    simp [World.record, World.mapTags, this]
  · have h3 : (DiffArrays o n).1 = [] := by simpa using h1
    have h4 : (DiffArrays o n).2 = [] := by simpa using h2
    simp [h3, h4]

theorem updateCoverCategory_ok (env : Env) (o n : String) (w w1 : World) (u : Unit)
    (h : updateCoverCategory env o n w = (.ok u, w1)) :
    w1.index = w.index ∧ w1.rel.categories = w.rel.categories ∧
    w1.rel.tags = w.rel.tags := by
  unfold updateCoverCategory at h
  by_cases h0 : o = n
  · simp only [h0, if_true, pure_ok] at h
    simp [h.2]
  · simp only [h0, if_false, InitImagesCategory, ChangeImagesCategory, guard_step_ok,
      pure_ok] at h
    obtain ⟨-, -, -, rfl⟩ := h
    split_ifs <;> simp [World.record, World.mapImages]

theorem updateIllustrationsCategory_ok (env : Env) (o n : String) (w w1 : World) (u : Unit)
    (h : updateIllustrationsCategory env o n w = (.ok u, w1)) :
    w1.index = w.index ∧ w1.rel.categories = w.rel.categories ∧
    w1.rel.tags = w.rel.tags := by
  unfold updateIllustrationsCategory at h
  simp only [InitImagesCategory, ChangeImagesCategory, guard_step_ok, pure_ok] at h
  obtain ⟨-, -, -, rfl⟩ := h
  split_ifs <;> simp [World.record, World.mapImages]

/-! ## Read by id -/

theorem articleListByID_eq (env : Env) (id : String) (w : World) :
    articleListByID env id w =
      if env.fails w.log (.esGet id) = true then
        (.error (.wrap "按ID查询失败" .dependency), w.record (.esGet id))
      else match w.index.lookup id with
        | none =>
          (.ok { List := some [], Total := 0, Page := 0, PageSize := 0, TotalPages := 0 },
            w.record (.esGet id))
        | some d =>
          match unmarshalArticle d with
          | .error e => (.error (.wrap "解析文章失败" e), w.record (.esGet id))
          | .ok a =>
            (.ok { List := some [FromArticle id a true], Total := 1, Page := 1, PageSize := 1,
                   TotalPages := 1 }, w.record (.esGet id)) := by
  unfold articleListByID
  simp only [bind_apply, Op.wrapErr, clientGet]
  by_cases h : env.fails w.log (.esGet id) = true
  · simp [h]
  · simp only [h]
    cases h1 : List.lookup id w.index with
    | none => simp
    | some d => cases h2 : unmarshalArticle d <;> simp [h2]

/-- C10, as stated, fails: the document `id-bad` is found in the index, yet the by-id
read returns an error instead of a one-item page, because its source does not decode. -/
theorem read_by_id_found_but_error :
    (badSourceWorld.index.lookup "id-bad").isSome = true ∧
    (GetArticleList quietEnv (listById "id-bad") badSourceWorld).1 =
      .error (.wrap "解析文章失败" .decode) := by
  refine ⟨by rfl, by rfl⟩

/-- C10, amended: for a list request with a non-empty id the result of `GetArticleList`
is that of the lookup of the id, whatever the other filters and the page are. When the
lookup itself does not fail: a document that is found and whose source decodes gives
exactly one item, with that id and every field of the document, content included, and
Total = Page = PageSize = TotalPages = 1; a document that is found but whose source does
not decode gives an error; a missing document gives an empty non-nil list with
Total = 0 and no error. -/
theorem read_by_id (env : Env) (info : ArticleListReq) (id : String) (w : World)
    (hid : info.ID = some id) (hne : id ≠ "") :
    GetArticleList env info w = articleListByID env id w ∧
    (∀ info2 : ArticleListReq, info2.ID = info.ID →
      GetArticleList env info2 w = GetArticleList env info w) ∧
    (env.fails w.log (.esGet id) = false →
      (w.index.lookup id = none →
        (GetArticleList env info w).1 =
          .ok { List := some [], Total := 0, Page := 0, PageSize := 0, TotalPages := 0 }) ∧
      (∀ d a, w.index.lookup id = some d → unmarshalArticle d = .ok a →
        (GetArticleList env info w).1 =
          .ok { List := some [
                  { ID := id, CreatedAt := a.CreatedAt, UpdatedAt := a.UpdatedAt,
                    Cover := a.Cover, Title := a.Title, Keyword := a.Keyword,
                    Category := a.Category, Tags := a.Tags, Abstract := a.Abstract,
                    Content := a.Content, VisibleRange := a.VisibleRange, Views := a.Views,
                    Comments := a.Comments, Likes := a.Likes }],
                Total := 1, Page := 1, PageSize := 1, TotalPages := 1 }) ∧
      (∀ d e, w.index.lookup id = some d → unmarshalArticle d = .error e →
        (GetArticleList env info w).1 = .error (.wrap "解析文章失败" e))) := by
  have h1 : ∀ info2 : ArticleListReq, info2.ID = some id →
      GetArticleList env info2 w = articleListByID env id w := by
    intro info2 h2
    simp [GetArticleList, h2, hne]
  refine ⟨h1 info hid, ?_, ?_⟩
  · intro info2 h2
    rw [h1 info hid, h1 info2 (h2.trans hid)]
  · intro hf
    rw [h1 info hid, articleListByID_eq]
    refine ⟨?_, ?_, ?_⟩
    · intro hl
      simp [hf, hl]
    · intro d a hl hd
      simp [hf, hl, hd, FromArticle]
    · intro d e hl hd
      simp [hf, hl, hd]

theorem read_by_id_witness :
    (listById "id-new").ID = some "id-new" ∧ "id-new" ≠ "" ∧
    GetArticleList quietEnv (listById "id-new") storedWorld =
      articleListByID quietEnv "id-new" storedWorld :=
  ⟨rfl, by decide, (read_by_id quietEnv (listById "id-new") "id-new" storedWorld rfl
    (by decide)).1⟩

/-! ## Delete: what happens to the index -/

theorem wrapErr_snd {α : Type} (step : String) (m : Op α) (w : World) :
    (Op.wrapErr step m w).2 = (m w).2 := by
  unfold Op.wrapErr
  rcases h : m w with ⟨r, w1⟩
  cases r <;> rfl

theorem wrapErr_isOk {α : Type} (step : String) (m : Op α) (w : World) :
    (Op.wrapErr step m w).1.isOk = (m w).1.isOk := by
  unfold Op.wrapErr
  rcases h : m w with ⟨r, w1⟩
  cases r <;> rfl

theorem invoke_index (env : Env) (c : Call) (effect : World → World)
    (h : ∀ w, (effect w).index = w.index) (w : World) :
    (invoke env c effect w).2.index = w.index := by
  unfold invoke
  split_ifs
  · rfl
  · simp [h, World.record]

theorem step_index (env : Env) (step : String) (c : Call) (effect : World → World)
    (h : ∀ w, (effect w).index = w.index) (w : World) :
    (Op.wrapErr step (invoke env c effect) w).2.index = w.index := by
  rw [wrapErr_snd, invoke_index env c effect h]

theorem bind_index_cases {α β : Type} (m : Op α) (f : α → Op β)
    (g : List (String × Doc) → List (String × Doc))
    (hm : ∀ w, (m w).2.index = w.index)
    (hf : ∀ a w, (f a w).2.index = if (f a w).1.isOk = true then g w.index else w.index)
    (w : World) :
    ((m >>= f) w).2.index =
      if ((m >>= f) w).1.isOk = true then g w.index else w.index := by
  rw [bind_apply]
  have h1 := hm w
  rcases h : m w with ⟨r, w1⟩
  rw [h] at h1
  cases r with
  | error e => simpa [Except.isOk, Except.toBool] using h1
  | ok a =>
    simp only
    rw [hf a w1]
    simp only at h1
    rw [h1]

theorem deleteOne_index (env : Env) (id : String) (w : World) :
    (deleteOne env id w).2.index =
      if (deleteOne env id w).1.isOk = true then
        w.index.filter (fun e => decide (e.1 ∉ [id]))
      else w.index := by
  unfold deleteOne
  apply bind_index_cases
  · intro w1
    rw [wrapErr_snd, Get_eq]
    split_ifs
    · rfl
    · split
      · rfl
      · split <;> rfl
  intro a
  apply bind_index_cases
  · exact step_index _ _ _ _ (fun _ => rfl)
  intro _
  apply bind_index_cases
  · exact step_index _ _ _ _ (fun _ => rfl)
  intro _
  apply bind_index_cases
  · exact step_index _ _ _ _ (fun _ => rfl)
  intro _
  apply bind_index_cases
  · intro w1
    rw [wrapErr_snd]
    unfold FindIllustrations
    split <;> rfl
  intro imgs
  apply bind_index_cases
  · exact step_index _ _ _ _ (fun _ => rfl)
  intro _ w1
  rw [wrapErr_snd, wrapErr_isOk]
  unfold Delete invoke
  split_ifs <;> simp_all [Except.isOk, Except.toBool, World.record]

theorem deleteLoop_cons (env : Env) (id : String) (rest : List String) (w : World) :
    deleteLoop env (id :: rest) w =
      match deleteOne env id w with
      | (.ok _, w1) => deleteLoop env rest w1
      | (.error e, w1) => (.error e, w1) := by
  rw [deleteLoop, bind_apply]
  rcases deleteOne env id w with ⟨r, w2⟩
  cases r <;> rfl

theorem deleteLoop_nil (env : Env) (w : World) : deleteLoop env [] w = (.ok (), w) := rfl

theorem deleteOne_ok_index (env : Env) (id : String) (w w1 : World) (u : Unit)
    (h : deleteOne env id w = (.ok u, w1)) :
    w1.index = w.index.filter (fun e => decide (e.1 ∉ [id])) := by
  have := deleteOne_index env id w
  rw [h] at this
  simpa [Except.isOk, Except.toBool] using this

theorem deleteOne_error_index (env : Env) (id : String) (w w1 : World) (e : Err)
    (h : deleteOne env id w = (.error e, w1)) : w1.index = w.index := by
  have := deleteOne_index env id w
  rw [h] at this
  simpa [Except.isOk, Except.toBool] using this

theorem deleteLoop_ok_index (env : Env) (ids : List String) (w w1 : World) (u : Unit)
    (h : deleteLoop env ids w = (.ok u, w1)) :
    w1.index = w.index.filter (fun e => decide (e.1 ∉ ids)) := by
  induction ids generalizing w with
  | nil =>
    rw [deleteLoop_nil] at h
    cases h
    simp
  | cons id rest ih =>
    rw [deleteLoop_cons] at h
    rcases h1 : deleteOne env id w with ⟨r, w2⟩
    rw [h1] at h
    cases r with
    | error e => simp at h
    | ok a =>
      simp only at h
      rw [ih w2 h, deleteOne_ok_index env id w w2 a h1, List.filter_filter]
      congr 1
      funext x
      simp [Bool.and_comm]

/-- When the loop of `ArticleDelete` ends with an error, the ids split into those fully
processed, the id at which a step failed, and the ids never reached. -/
theorem deleteLoop_error (env : Env) (ids : List String) (w : World) (e : Err)
    (h : (deleteLoop env ids w).1 = .error e) :
    ∃ done failing rest, ids = done ++ failing :: rest ∧
      (deleteLoop env done w).1 = .ok () ∧
      deleteOne env failing (deleteLoop env done w).2 = (.error e, (deleteLoop env ids w).2) := by
  induction ids generalizing w with
  | nil => simp [deleteLoop_nil] at h
  | cons id tl ih =>
    rw [deleteLoop_cons] at h ⊢
    rcases h1 : deleteOne env id w with ⟨r, w2⟩
    rw [h1] at h
    cases r with
    | error e2 =>
      simp only at h
      cases h
      refine ⟨[], id, tl, rfl, rfl, ?_⟩
      simp [deleteLoop_nil, h1]
    | ok a =>
      simp only at h ⊢
      obtain ⟨done, failing, rest, hids, hok, hfail⟩ := ih w2 h
      refine ⟨id :: done, failing, rest, by simp [hids], ?_, ?_⟩
      · rw [deleteLoop_cons, h1]
        exact hok
      · rw [deleteLoop_cons, h1]
        exact hfail

theorem lookup_filter_none {α : Type} (l : List (String × α)) (p : String × α → Bool)
    (k : String) (h : l.lookup k = none) : (l.filter p).lookup k = none := by
  induction l with
  | nil => rfl
  | cons e rest ih =>
    rcases e with ⟨k2, x⟩
    by_cases hk : k = k2
    · subst hk
      simp [List.lookup] at h
    · have hb : (k == k2) = false := by simpa using hk
      simp only [List.lookup, hb] at h
      by_cases hp : p (k2, x) = true
      · rw [List.filter_cons_of_pos hp]
        simp only [List.lookup, hb]
        exact ih h
      · rw [List.filter_cons_of_neg hp]
        exact ih h

theorem deleteOne_missing (env : Env) (id : String) (w : World)
    (h : w.index.lookup id = none) : ∃ e, (deleteOne env id w).1 = .error e := by
  unfold deleteOne
  rw [bind_apply, Get_wrap_eq, h]
  split_ifs <;> exact ⟨_, rfl⟩

theorem deleteLoop_missing (env : Env) (ids : List String) (w : World)
    (h : ∃ id ∈ ids, w.index.lookup id = none) : ∃ e, (deleteLoop env ids w).1 = .error e := by
  induction ids generalizing w with
  | nil => simp at h
  | cons id tl ih =>
    rw [deleteLoop_cons]
    rcases h1 : deleteOne env id w with ⟨r, w2⟩
    cases r with
    | error e => exact ⟨e, rfl⟩
    | ok a =>
      simp only
      apply ih
      obtain ⟨x, hx, hnone⟩ := h
      have hidx := deleteOne_ok_index env id w w2 a h1
      rcases List.mem_cons.mp hx with rfl | hx2
      · obtain ⟨e, he⟩ := deleteOne_missing env x w hnone
        rw [h1] at he
        cases he
      · exact ⟨x, hx2, by rw [hidx]; exact lookup_filter_none _ _ _ hnone⟩

theorem Transaction_fst (f : Op Unit) (w : World) : (Transaction f w).1 = (f w).1 := by
  unfold Transaction
  rcases f w with ⟨r, w1⟩
  cases r <;> rfl

theorem Transaction_index (f : Op Unit) (w : World) :
    (Transaction f w).2.index = (f w).2.index := by
  unfold Transaction
  rcases f w with ⟨r, w1⟩
  cases r <;> rfl

theorem Transaction_rel_of_error (f : Op Unit) (w : World) (e : Err)
    (h : (f w).1 = .error e) : (Transaction f w).2.rel = w.rel := by
  unfold Transaction
  rcases hf : f w with ⟨r, w1⟩
  rw [hf] at h
  cases r with
  | ok a => cases h
  | error e2 => rfl

theorem ArticleDelete_of_ne (env : Env) (req : ArticleDeleteReq) (h : req.IDs ≠ []) :
    ArticleDelete env req = Transaction (deleteLoop env req.IDs) := by
  unfold ArticleDelete
  rw [if_neg]
  simpa using h

/-- C2: `ArticleDelete` is all-or-nothing on the relational store: when some id of the
list is not found in the index, `ArticleDelete` returns an error, and the committed
category counters, tag counters and image classifications are those from before the
call, also for the ids processed before the missing one. -/
theorem delete_missing_id_rolls_back (env : Env) (req : ArticleDeleteReq) (w : World)
    (h : ∃ id ∈ req.IDs, w.index.lookup id = none) :
    (∃ e, (ArticleDelete env req w).1 = .error e) ∧
    (ArticleDelete env req w).2.rel = w.rel ∧
    (ArticleDelete env req w).2.rel.categories = w.rel.categories ∧
    (ArticleDelete env req w).2.rel.tags = w.rel.tags ∧
    (ArticleDelete env req w).2.rel.images = w.rel.images := by
  have hne : req.IDs ≠ [] := by
    obtain ⟨id, hid, -⟩ := h
    exact List.ne_nil_of_mem hid
  obtain ⟨e, he⟩ := deleteLoop_missing env req.IDs w h
  have hrel : (ArticleDelete env req w).2.rel = w.rel := by
    rw [ArticleDelete_of_ne env req hne]
    exact Transaction_rel_of_error _ _ e he
  refine ⟨⟨e, ?_⟩, hrel, by rw [hrel], by rw [hrel], by rw [hrel]⟩
  rw [ArticleDelete_of_ne env req hne, Transaction_fst]
  exact he

theorem delete_missing_id_rolls_back_witness :
    (∃ id ∈ ["id-new", "id-missing"], storedWorld.index.lookup id = none) ∧
    (ArticleDelete quietEnv { IDs := ["id-new", "id-missing"] } storedWorld).2.rel.tags =
      storedWorld.rel.tags :=
  ⟨⟨"id-missing", by simp, by rfl⟩,
    (delete_missing_id_rolls_back quietEnv { IDs := ["id-new", "id-missing"] } storedWorld
      ⟨"id-missing", by simp, by rfl⟩).2.2.2.1⟩

/-- C3, as stated, fails: deleting `[id-new, id-missing]` returns an error because the
second id is not found, yet the document `id-new`, which was in the index before the
call, has been removed from the index. -/
theorem delete_error_after_index_removal :
    (ArticleDelete quietEnv { IDs := ["id-new", "id-missing"] } storedWorld).1 =
      .error (.wrap "获取文章失败" .notFound) ∧
    (storedWorld.index.lookup "id-new").isSome = true ∧
    (ArticleDelete quietEnv { IDs := ["id-new", "id-missing"] } storedWorld).2.index.lookup
      "id-new" = none := by
  refine ⟨by rfl, by rfl, by rfl⟩

/-- C3, amended: whenever `ArticleDelete` returns an error for an id list, the list
splits into the ids whose steps all succeeded, the id at which a step failed and the
ids never reached; the documents of the first group have been removed from the index
and no other document has been removed or changed (so the index is the one from before
the call exactly when the failure is at the first id), and the relational store is the
one from before the call. -/
theorem delete_error_index (env : Env) (req : ArticleDeleteReq) (w : World) (e : Err)
    (h : (ArticleDelete env req w).1 = .error e) :
    ∃ done failing rest, req.IDs = done ++ failing :: rest ∧
      (deleteLoop env done w).1 = .ok () ∧
      (deleteOne env failing (deleteLoop env done w).2).1 = .error e ∧
      (ArticleDelete env req w).2.index =
        w.index.filter (fun x => decide (x.1 ∉ done)) ∧
      (done = [] → (ArticleDelete env req w).2.index = w.index) ∧
      (ArticleDelete env req w).2.rel = w.rel := by
  have hne : req.IDs ≠ [] := by
    intro h0
    simp [ArticleDelete, h0] at h
  rw [ArticleDelete_of_ne env req hne] at h ⊢
  rw [Transaction_fst] at h
  obtain ⟨done, failing, rest, hids, hok, hfail⟩ := deleteLoop_error env req.IDs w e h
  have hidx : (Transaction (deleteLoop env req.IDs) w).2.index =
      w.index.filter (fun x => decide (x.1 ∉ done)) := by
    rw [Transaction_index, deleteOne_error_index env failing _ _ e hfail]
    rcases hd : deleteLoop env done w with ⟨r, w2⟩
    rw [hd] at hok
    simp only at hok
    subst hok
    exact deleteLoop_ok_index env done w w2 () hd
  refine ⟨done, failing, rest, hids, hok, by rw [hfail], hidx, ?_,
    Transaction_rel_of_error _ _ e h⟩
  intro hd
  rw [hidx, hd]
  simp

theorem delete_error_index_witness :
    (ArticleDelete quietEnv { IDs := ["id-new", "id-missing"] } storedWorld).1 =
      .error (.wrap "获取文章失败" .notFound) ∧
    (ArticleDelete quietEnv { IDs := ["id-new", "id-missing"] } storedWorld).2.rel =
      storedWorld.rel :=
  ⟨by rfl,
    by
      obtain ⟨_, _, _, _, _, _, _, _, hrel⟩ :=
        delete_error_index quietEnv { IDs := ["id-new", "id-missing"] } storedWorld
          (.wrap "获取文章失败" .notFound) (by rfl)
      exact hrel⟩

/-! ## Image-URL parse failures -/

theorem updateIllustrationsCategory_lenient (env : Env) (o n : String) :
    updateIllustrationsCategory env.lenient o n = updateIllustrationsCategory env o n := by
  unfold updateIllustrationsCategory
  simp only [Env.lenient]
  cases env.findIllustrations o <;> cases env.findIllustrations n <;> rfl

theorem UpdateArticle_lenient (env : Env) (req : ArticleUpdateReq) :
    UpdateArticle env.lenient req = UpdateArticle env req := by
  unfold UpdateArticle
  simp only [updateIllustrationsCategory_lenient]
  rfl

theorem updateCategoryCounts_quiet (env : Env) (hq : ∀ l c, env.fails l c = false)
    (o n : String) (w : World) : ∃ w1, updateCategoryCounts env o n w = (.ok (), w1) := by
  unfold updateCategoryCounts
  by_cases h0 : o = n
  · exact ⟨w, by simp [h0]⟩
  · simp only [h0, if_false, DecOrDeleteCategory, IncOrCreateCategory, guard_step_ok, pure_ok,
      hq, implies_true, true_and]
    exact ⟨_, rfl⟩

theorem updateTagCounts_quiet (env : Env) (hq : ∀ l c, env.fails l c = false)
    (o n : List String) (w : World) : ∃ w1, updateTagCounts env o n w = (.ok (), w1) := by
  unfold updateTagCounts
  simp only [DecOrDeleteTag, AddOrIncTag, guard_step_ok, pure_ok, hq, implies_true, true_and]
  exact ⟨_, rfl⟩

theorem updateCoverCategory_quiet (env : Env) (hq : ∀ l c, env.fails l c = false)
    (o n : String) (w : World) : ∃ w1, updateCoverCategory env o n w = (.ok (), w1) := by
  unfold updateCoverCategory
  by_cases h0 : o = n
  · exact ⟨w, by simp [h0]⟩
  · simp only [h0, if_false, InitImagesCategory, ChangeImagesCategory, guard_step_ok, pure_ok,
      hq, implies_true, true_and]
    exact ⟨_, rfl⟩

theorem updateIllustrationsCategory_quiet (env : Env) (hq : ∀ l c, env.fails l c = false)
    (o n : String) (w : World) :
    ∃ w1, updateIllustrationsCategory env o n w = (.ok (), w1) := by
  unfold updateIllustrationsCategory
  simp only [InitImagesCategory, ChangeImagesCategory, guard_step_ok, pure_ok, hq,
    implies_true, true_and]
  exact ⟨_, rfl⟩

theorem UpdateArticle_quiet (env : Env) (hq : ∀ l c, env.fails l c = false)
    (req : ArticleUpdateReq) (w : World) (d : Doc) (a : Article)
    (hd : w.index.lookup req.ID = some d) (ha : unmarshalArticle d = .ok a) :
    (UpdateArticle env req w).1 = .ok () := by
  unfold UpdateArticle
  rw [Transaction_fst]
  obtain ⟨w1, h1⟩ := updateCategoryCounts_quiet env hq a.Category
    (articleToUpdate env.now req).Category (w.record (.esGet req.ID))
  obtain ⟨w2, h2⟩ := updateTagCounts_quiet env hq a.Tags.elems
    (articleToUpdate env.now req).Tags.elems w1
  obtain ⟨w3, h3⟩ := updateCoverCategory_quiet env hq a.Cover
    (articleToUpdate env.now req).Cover w2
  obtain ⟨w4, h4⟩ := updateIllustrationsCategory_quiet env hq a.Content
    (articleToUpdate env.now req).Content w3
  have hi1 := (updateCategoryCounts_ok _ _ _ _ _ _ h1).1
  have hi2 := (updateTagCounts_ok _ _ _ _ _ _ h2).1
  have hi3 := (updateCoverCategory_ok _ _ _ _ _ _ h3).1
  have hi4 := (updateIllustrationsCategory_ok _ _ _ _ _ _ h4).1
  have hidx : w4.index.lookup req.ID = some d := by
    rw [hi4, hi3, hi2, hi1]
    exact hd
  simp only [bind_apply, Get_wrap_eq, hq, hd, ha, Bool.false_eq_true, if_false]
  simp only [h1, h2, h3, h4, Update_eq, hq, hidx, Bool.false_eq_true, if_false]

theorem deleteOne_parse_failure (env : Env) (hq : ∀ l c, env.fails l c = false)
    (id : String) (w : World) (d : Doc) (a : Article)
    (hd : w.index.lookup id = some d) (ha : unmarshalArticle d = .ok a)
    (hp : env.findIllustrations a.Content = none) :
    deleteOne env id w =
      (.error (.wrap "解析插图失败" .parse),
        { index := w.index,
          rel := { categories := decOrDelete w.rel.categories a.Category,
                   tags := a.Tags.elems.foldl decOrDelete w.rel.tags,
                   images := reclassify w.rel.images [a.Cover] 0 },
          log := w.log ++ [.esGet id, .decOrDeleteCategory a.Category,
            .decOrDeleteTag a.Tags.elems, .initImagesCategory [a.Cover]] }) := by
  unfold deleteOne
  simp only [bind_apply, Get_wrap_eq, hq, hd, ha, Bool.false_eq_true, if_false]
  simp only [DecOrDeleteCategory, DecOrDeleteTag, InitImagesCategory, step_apply, hq,
    Bool.false_eq_true, if_false]
  simp only [Op.wrapErr, FindIllustrations, hp]
  simp [World.record, World.mapCategories, World.mapTags, World.mapImages]

/-- C9, as stated, fails for `ArticleDelete`: no collaborator call fails, the images of
the article's content cannot be extracted, and `ArticleDelete` returns the error
of the extraction instead of treating the URL set as empty; the document is still in
the index. -/
theorem delete_parse_failure_is_fatal :
    parseFailEnv.findIllustrations "text" = none ∧
    (∀ l c, parseFailEnv.fails l c = false) ∧
    (ArticleDelete parseFailEnv { IDs := ["id-new"] } storedWorld).1 =
      .error (.wrap "解析插图失败" .parse) ∧
    ((ArticleDelete parseFailEnv { IDs := ["id-new"] } storedWorld).2.index.lookup
      "id-new").isSome = true := by
  refine ⟨rfl, fun _ _ => rfl, by rfl, by rfl⟩

/-- C9, amended: image-URL parse failures are advisory in `UpdateArticle` only. There,
a content whose images cannot be extracted is treated as a content without images: the
operation behaves exactly as with an extractor that returns the empty set instead of
failing, and it succeeds whenever no collaborator call fails and the stored article
decodes. In `ArticleDelete` a parse failure is fatal: when no collaborator call fails
and the images of the first article's content cannot be extracted, `ArticleDelete`
returns the error of the extraction after the counter updates and the cover
reclassification, without the illustration reclassification and without the index
delete, and the relational store is rolled back. -/
theorem parse_failure_soft_in_update_hard_in_delete (env : Env) :
    (∀ req w, UpdateArticle env req w = UpdateArticle env.lenient req w) ∧
    (∀ req w d a, (∀ l c, env.fails l c = false) → w.index.lookup req.ID = some d →
      unmarshalArticle d = .ok a → (UpdateArticle env req w).1 = .ok ()) ∧
    (∀ id rest w d a, (∀ l c, env.fails l c = false) → w.index.lookup id = some d →
      unmarshalArticle d = .ok a → env.findIllustrations a.Content = none →
      ArticleDelete env { IDs := id :: rest } w =
        (.error (.wrap "解析插图失败" .parse),
          { index := w.index, rel := w.rel,
            log := w.log ++ [.esGet id, .decOrDeleteCategory a.Category,
              .decOrDeleteTag a.Tags.elems, .initImagesCategory [a.Cover]] })) := by
  refine ⟨?_, ?_, ?_⟩
  · intro req w
    rw [UpdateArticle_lenient]
  · intro req w d a hq hd ha
    exact UpdateArticle_quiet env hq req w d a hd ha
  · intro id rest w d a hq hd ha hp
    rw [ArticleDelete_of_ne env _ (by simp)]
    unfold Transaction
    rw [deleteLoop_cons, deleteOne_parse_failure env hq id w d a hd ha hp]

theorem parse_failure_soft_in_update_hard_in_delete_witness :
    (∀ l c, parseFailEnv.fails l c = false) ∧
    (UpdateArticle parseFailEnv sampleUpdateVisible storedWorld).1 = .ok () ∧
    (ArticleDelete parseFailEnv { IDs := ["id-new"] } storedWorld).1 =
      .error (.wrap "解析插图失败" .parse) :=
  ⟨fun _ _ => rfl,
    (parse_failure_soft_in_update_hard_in_delete parseFailEnv).2.1 sampleUpdateVisible
      storedWorld _ _ (fun _ _ => rfl) (by rfl) (by rfl),
    by
      rw [(parse_failure_soft_in_update_hard_in_delete parseFailEnv).2.2 "id-new" []
        storedWorld _ _ (fun _ _ => rfl) (by rfl) (by rfl) rfl]⟩

/-! ## Counter arithmetic -/

theorem foldl_incOrCreate (l : List String) (c : Counter) (t : String) :
    (l.foldl incOrCreate c) t = incRow^[l.count t] (c t) := by
  induction l generalizing c with
  | nil => rfl
  | cons x xs ih =>
    rw [List.foldl_cons, ih]
    by_cases h : x = t
    · subst h
      simp [incOrCreate, List.count_cons_self, Function.iterate_succ_apply]
    · have h2 : ¬ t = x := fun e => h e.symm
      simp [incOrCreate, h2, List.count_cons_of_ne h]

theorem foldl_decOrDelete (l : List String) (c : Counter) (t : String) :
    (l.foldl decOrDelete c) t = decRow^[l.count t] (c t) := by
  induction l generalizing c with
  | nil => rfl
  | cons x xs ih =>
    rw [List.foldl_cons, ih]
    by_cases h : x = t
    · subst h
      simp [decOrDelete, List.count_cons_self, Function.iterate_succ_apply]
    · have h2 : ¬ t = x := fun e => h e.symm
      simp [decOrDelete, h2, List.count_cons_of_ne h]

theorem count_diff (o n : List String) (ho : o.Nodup) (t : String) :
    (o.filter (fun x => decide (x ∉ n))).count t = if t ∈ o ∧ t ∉ n then 1 else 0 := by
  by_cases h1 : t ∈ o ∧ t ∉ n
  · rw [if_pos h1]
    have hmem : t ∈ o.filter (fun x => decide (x ∉ n)) := by
      simp [List.mem_filter, h1.1, h1.2]
    exact List.count_eq_one_of_mem (ho.filter _) hmem
  · rw [if_neg h1]
    apply List.count_eq_zero_of_not_mem
    intro hmem
    simp only [List.mem_filter, decide_eq_true_eq] at hmem
    exact h1 hmem

theorem tagsAfterUpdate_apply (c : Counter) (o n : List String) (ho : o.Nodup)
    (hn : n.Nodup) (t : String) :
    tagsAfterUpdate c o n t =
      if t ∈ o ∧ t ∉ n then decRow (c t)
      else if t ∈ n ∧ t ∉ o then incRow (c t)
      else c t := by
  unfold tagsAfterUpdate DiffArrays
  simp only [foldl_incOrCreate, foldl_decOrDelete, count_diff o n ho, count_diff n o hn]
  by_cases h1 : t ∈ o ∧ t ∉ n
  · have h2 : ¬ (t ∈ n ∧ t ∉ o) := fun h => h.2 h1.1
    simp [h1, h2]
  · by_cases h2 : t ∈ n ∧ t ∉ o
    · simp [h1, h2]
    · simp [h1, h2]

theorem incRow_decRow (o : Option Nat) (h0 : o ≠ some 0) (hn : o ≠ none) :
    incRow (decRow o) = o := by
  cases o with
  | none => exact absurd rfl hn
  | some k =>
    have hk : k ≠ 0 := fun h => h0 (by rw [h])
    by_cases hk1 : k ≤ 1
    · have : k = 1 := by omega
      subst this
      rfl
    · simp only [decRow, hk1, if_false, incRow]
      congr 1
      omega

theorem decRow_incRow (o : Option Nat) (h0 : o ≠ some 0) : decRow (incRow o) = o := by
  cases o with
  | none => rfl
  | some k =>
    have hk : k ≠ 0 := fun h => h0 (by rw [h])
    have hk1 : ¬ k + 1 ≤ 1 := by omega
    simp [decRow, incRow, hk1]

/-- C8, as stated, fails: on a counter table without rows, reconciling the tags from
`[a]` to `[]` and back to `[a]` leaves the tag `a` with a row holding 1, while it had no
row before. -/
theorem tag_round_trip_creates_row :
    emptyWorld.rel.tags "a" = none ∧
    (updateTagCounts quietEnv ["a"] [] emptyWorld).1 = .ok () ∧
    (updateTagCounts quietEnv [] ["a"]
      (updateTagCounts quietEnv ["a"] [] emptyWorld).2).1 = .ok () ∧
    (updateTagCounts quietEnv [] ["a"]
      (updateTagCounts quietEnv ["a"] [] emptyWorld).2).2.rel.tags "a" = some 1 := by
  refine ⟨rfl, by rfl, by rfl, by rfl⟩

/-- C8, amended: for all sets A and B of tag names and every counter table that holds
no row at count 0 and has a row for every tag of A that is not in B, applying
`updateTagCounts(A, B)` and then `updateTagCounts(B, A)` leaves every tag counter, the
presence or absence of its row included, exactly as it was before the first call. -/
theorem tag_round_trip (env : Env) (A B : List String) (w w1 w2 : World)
    (hA : A.Nodup) (hB : B.Nodup)
    (hzero : ∀ t, w.rel.tags t ≠ some 0)
    (hrows : ∀ t ∈ A, t ∉ B → w.rel.tags t ≠ none)
    (h1 : updateTagCounts env A B w = (.ok (), w1))
    (h2 : updateTagCounts env B A w1 = (.ok (), w2)) :
    w2.rel.tags = w.rel.tags := by
  have e1 := (updateTagCounts_ok env A B w w1 () h1).2.2
  have e2 := (updateTagCounts_ok env B A w1 w2 () h2).2.2
  funext t
  rw [e2, tagsAfterUpdate_apply _ B A hB hA, e1, tagsAfterUpdate_apply _ A B hA hB]
  by_cases hAB : t ∈ A ∧ t ∉ B
  · have hBA : ¬ (t ∈ B ∧ t ∉ A) := fun h => h.2 hAB.1
    rw [if_neg hBA, if_pos hAB, if_pos hAB]
    exact incRow_decRow _ (hzero t) (hrows t hAB.1 hAB.2)
  · by_cases hBA : t ∈ B ∧ t ∉ A
    · rw [if_pos hBA, if_neg hAB, if_pos hBA]
      exact decRow_incRow _ (hzero t)
    · rw [if_neg hBA, if_neg hAB, if_neg hAB, if_neg hBA]

theorem tag_round_trip_witness :
    ["a", "b"].Nodup ∧ ["b", "c"].Nodup ∧
    (∀ t, storedWorld.rel.tags t ≠ some 0) ∧
    (updateTagCounts quietEnv ["b", "c"] ["a", "b"]
      (updateTagCounts quietEnv ["a", "b"] ["b", "c"] storedWorld).2).2.rel.tags =
      storedWorld.rel.tags := by
  have hz : ∀ t, storedWorld.rel.tags t ≠ some 0 := by
    intro t
    have h := (ArticleCreate_of_ok quietEnv sampleCreateReq emptyWorld (by rfl)).2.2
    show (ArticleCreate quietEnv sampleCreateReq emptyWorld).2.rel.tags t ≠ some 0
    rw [h, foldl_incOrCreate]
    simp only [emptyWorld]
    generalize List.count t sampleCreateReq.Tags.elems = k
    cases k with
    | zero => simp
    | succ k =>
      rw [Function.iterate_succ_apply']
      cases incRow^[k] none <;> simp [incRow]
  have hrows : ∀ t ∈ ["a", "b"], t ∉ ["b", "c"] → storedWorld.rel.tags t ≠ none := by
    intro t ht hn
    have : t = "a" := by
      simp at ht hn
      rcases ht with h | h
      · exact h
      · exact absurd h hn.1
    subst this
    decide
  exact ⟨by decide, by decide, hz,
    tag_round_trip quietEnv ["a", "b"] ["b", "c"] storedWorld _ _ (by decide) (by decide)
      hz hrows rfl rfl⟩

/-! ## Counting references in the index -/

theorem incRow_rowOf (k : Nat) : incRow (rowOf k) = rowOf (k + 1) := by
  unfold rowOf
  by_cases h : k = 0
  · simp [h, incRow]
  · simp [h, incRow]

theorem decRow_rowOf (k : Nat) : decRow (rowOf k) = rowOf (k - 1) := by
  unfold rowOf
  by_cases h : k = 0
  · simp [h, decRow]
  · by_cases h1 : k ≤ 1
    · have : k = 1 := by omega
      simp [this, decRow]
    · have h2 : k - 1 ≠ 0 := by omega
      simp [h, h1, h2, decRow]

theorem incRow_iterate_rowOf (j k : Nat) : incRow^[j] (rowOf k) = rowOf (k + j) := by
  induction j generalizing k with
  | zero => rfl
  | succ j ih =>
    rw [Function.iterate_succ_apply, incRow_rowOf, ih]
    congr 1
    omega

theorem decRow_iterate_rowOf (j k : Nat) : decRow^[j] (rowOf k) = rowOf (k - j) := by
  induction j generalizing k with
  | zero => rfl
  | succ j ih =>
    rw [Function.iterate_succ_apply, decRow_rowOf, ih]
    congr 1
    omega

theorem countP_append_single {α : Type} (p : α → Bool) (l : List α) (x : α) :
    (l ++ [x]).countP p = l.countP p + if p x = true then 1 else 0 := by
  rw [List.countP_append]
  by_cases h : p x = true
  · simp [h]
  · simp [h]

theorem lookup_eq_none_iff_not_mem_keys {α : Type} (l : List (String × α)) (k : String) :
    l.lookup k = none ↔ k ∉ l.map Prod.fst := by
  induction l with
  | nil => simp [List.lookup]
  | cons e rest ih =>
    rcases e with ⟨k2, x⟩
    by_cases hk : k = k2
    · subst hk
      simp [List.lookup]
    · have hb : (k == k2) = false := by simpa using hk
      simp only [List.lookup, hb, List.map_cons, List.mem_cons, hk, false_or]
      exact ih

theorem filter_id_of_not_mem_keys (l : List (String × Doc)) (id : String)
    (h : id ∉ l.map Prod.fst) : l.filter (fun e => decide (e.1 ∉ [id])) = l := by
  apply List.filter_eq_self.mpr
  intro e he
  have : e.1 ≠ id := by
    intro h2
    apply h
    rw [← h2]
    exact List.mem_map_of_mem Prod.fst he
  simp [this]

theorem replaceDoc_of_not_mem_keys (l : List (String × Doc)) (id : String) (f : Doc → Doc)
    (h : id ∉ l.map Prod.fst) : replaceDoc l id f = l := by
  unfold replaceDoc
  induction l with
  | nil => rfl
  | cons e rest ih =>
    have h1 : ¬ e.1 = id := by
      intro h2
      apply h
      simp [h2]
    have h3 : id ∉ rest.map Prod.fst := by
      intro h2
      apply h
      simp only [List.map_cons, List.mem_cons]
      exact Or.inr h2
    simp only [List.map_cons, h1, if_false, ih h3]

theorem countP_filter_id (p : String × Doc → Bool) (l : List (String × Doc)) (id : String)
    (d : Doc) (hn : (l.map Prod.fst).Nodup) (hl : l.lookup id = some d) :
    (l.filter (fun e => decide (e.1 ∉ [id]))).countP p + (if p (id, d) = true then 1 else 0) =
      l.countP p := by
  induction l with
  | nil => simp [List.lookup] at hl
  | cons e rest ih =>
    rcases e with ⟨k, x⟩
    simp only [List.map_cons, List.nodup_cons] at hn
    by_cases hk : id = k
    · subst hk
      simp only [List.lookup, beq_self_eq_true, Option.some.injEq] at hl
      subst hl
      have hf : ((id, x) :: rest).filter (fun e => decide (e.1 ∉ [id])) = rest := by
        rw [List.filter_cons_of_neg (by simp), filter_id_of_not_mem_keys rest id hn.1]
      rw [hf, List.countP_cons]
    · have hb : (id == k) = false := by simpa using hk
      simp only [List.lookup, hb] at hl
      have hk2 : ¬ k = id := fun h => hk h.symm
      rw [List.filter_cons_of_pos (by simp [hk2]), List.countP_cons, List.countP_cons,
        ← ih hn.2 hl]
      omega

theorem countP_replaceDoc (p : String × Doc → Bool) (l : List (String × Doc)) (id : String)
    (d : Doc) (f : Doc → Doc) (hn : (l.map Prod.fst).Nodup) (hl : l.lookup id = some d) :
    (replaceDoc l id f).countP p + (if p (id, d) = true then 1 else 0) =
      l.countP p + (if p (id, f d) = true then 1 else 0) := by
  induction l with
  | nil => simp [List.lookup] at hl
  | cons e rest ih =>
    rcases e with ⟨k, x⟩
    simp only [List.map_cons, List.nodup_cons] at hn
    by_cases hk : id = k
    · subst hk
      simp only [List.lookup, beq_self_eq_true, Option.some.injEq] at hl
      subst hl
      have hf : replaceDoc ((id, x) :: rest) id f = (id, f x) :: rest := by
        have := replaceDoc_of_not_mem_keys rest id f hn.1
        unfold replaceDoc at this ⊢
        simp only [List.map_cons, if_true, this]
      rw [hf, List.countP_cons, List.countP_cons]
      omega
    · have hb : (id == k) = false := by simpa using hk
      simp only [List.lookup, hb] at hl
      have hk2 : ¬ k = id := fun h => hk h.symm
      have hf : replaceDoc ((k, x) :: rest) id f = (k, x) :: replaceDoc rest id f := by
        unfold replaceDoc
        simp only [List.map_cons, hk2, if_false]
      rw [hf, List.countP_cons, List.countP_cons]
      have := ih hn.2 hl
      omega

/-! ## Successful runs of the write path -/

theorem unmarshal_mergeDoc (d : Doc) (old : Article) (p : ArticleUpdateDoc)
    (h : unmarshalArticle d = .ok old) :
    unmarshalArticle (mergeDoc d (marshalUpdate p)) =
      .ok { old with UpdatedAt := p.UpdatedAt, Cover := p.Cover, Title := p.Title,
                     Keyword := p.Keyword, Category := p.Category, Tags := p.Tags,
                     Abstract := p.Abstract, Content := p.Content } := by
  rw [unmarshalArticle_ok_iff] at h ⊢
  obtain ⟨h1, h2, h3, h4, h5, h6, h7, h8, h9, h10, h11, h12, h13⟩ := h
  refine ⟨?_, ?_, ?_, ?_, ?_, ?_, ?_, ?_, ?_, ?_, ?_, ?_, ?_⟩
  · simpa [decodeString, lookup_merge_update] using h1
  · simp [decodeString, lookup_merge_update]
  · simp [decodeString, lookup_merge_update]
  · simp [decodeString, lookup_merge_update]
  · simp [decodeString, lookup_merge_update]
  · simp [decodeString, lookup_merge_update]
  · cases ht : p.Tags <;> simp [decodeStrings, lookup_merge_update, encodeStrings, ht]
  · simp [decodeString, lookup_merge_update]
  · simp [decodeString, lookup_merge_update]
  · simpa [decodeUint, lookup_merge_update] using h10
  · simpa [decodeInt, lookup_merge_update] using h11
  · simpa [decodeInt, lookup_merge_update] using h12
  · simpa [decodeInt, lookup_merge_update] using h13

theorem Get_ok (env : Env) (step : String) (id : String) (w w1 : World) (a : Article)
    (h : Op.wrapErr step (Get env id) w = (.ok a, w1)) :
    w1 = w.record (.esGet id) ∧ ∃ d, w.index.lookup id = some d ∧ unmarshalArticle d = .ok a := by
  rw [Get_wrap_eq] at h
  split_ifs at h
  · simp at h
  · cases hl : List.lookup id w.index with
    | none => simp [hl] at h
    | some d =>
      cases hd : unmarshalArticle d with
      | error e => simp [hl, hd] at h
      | ok a2 =>
        simp only [hl, hd, Prod.mk.injEq, Except.ok.injEq] at h
        obtain ⟨rfl, rfl⟩ := h
        exact ⟨rfl, d, rfl, hd⟩

theorem Update_ok (env : Env) (step : String) (id : String) (doc : Doc) (w w1 : World)
    (u : Unit) (h : Op.wrapErr step (Update env id doc) w = (.ok u, w1)) :
    w1.index = replaceDoc w.index id (fun d => mergeDoc d doc) ∧ w1.rel = w.rel := by
  rw [Update_eq] at h
  split_ifs at h
  · simp at h
  · cases hl : List.lookup id w.index with
    | none => simp [hl] at h
    | some d =>
      simp only [hl, Prod.mk.injEq, true_and] at h
      subst h
      exact ⟨rfl, rfl⟩

theorem UpdateArticle_ok (env : Env) (req : ArticleUpdateReq) (w w1 : World) (u : Unit)
    (h : UpdateArticle env req w = (.ok u, w1)) :
    ∃ d old, w.index.lookup req.ID = some d ∧ unmarshalArticle d = .ok old ∧
      w1.index = replaceDoc w.index req.ID
        (fun x => mergeDoc x (marshalUpdate (articleToUpdate env.now req))) ∧
      w1.rel.categories = categoriesAfterUpdate w.rel.categories old.Category req.Category ∧
      w1.rel.tags = tagsAfterUpdate w.rel.tags old.Tags.elems req.Tags.elems := by
  unfold UpdateArticle at h
  rw [Transaction_ok, bind_ok] at h
  obtain ⟨old, wa, hget, h⟩ := h
  obtain ⟨rfl, d, hd, hold⟩ := Get_ok env _ _ _ _ _ hget
  rw [bind_ok] at h
  obtain ⟨_, wb, hcat, h⟩ := h
  rw [bind_ok] at h
  obtain ⟨_, wc, htag, h⟩ := h
  rw [bind_ok] at h
  obtain ⟨_, wd, hcov, h⟩ := h
  rw [bind_ok] at h
  obtain ⟨_, we, hill, h⟩ := h
  obtain ⟨i1, t1, c1⟩ := updateCategoryCounts_ok _ _ _ _ _ _ hcat
  obtain ⟨i2, c2, t2⟩ := updateTagCounts_ok _ _ _ _ _ _ htag
  obtain ⟨i3, c3, t3⟩ := updateCoverCategory_ok _ _ _ _ _ _ hcov
  obtain ⟨i4, c4, t4⟩ := updateIllustrationsCategory_ok _ _ _ _ _ _ hill
  obtain ⟨i5, r5⟩ := Update_ok _ _ _ _ _ _ _ h
  refine ⟨d, old, hd, hold, ?_, ?_, ?_⟩
  · rw [i5, i4, i3, i2, i1]
    rfl
  · rw [r5, c4, c3, c2, c1]
    rfl
  · rw [r5, t4, t3, t2, t1]
    rfl

theorem FindIllustrations_ok (env : Env) (step : String) (content : String) (w w1 : World)
    (l : List String) (h : Op.wrapErr step (FindIllustrations env content) w = (.ok l, w1)) :
    w1 = w := by
  rw [wrapErr_ok] at h
  unfold FindIllustrations at h
  split at h
  · simp at h
  · simp only [Prod.mk.injEq, Except.ok.injEq] at h
    exact h.2.symm

theorem deleteOne_ok (env : Env) (id : String) (w w1 : World) (u : Unit)
    (h : deleteOne env id w = (.ok u, w1)) :
    ∃ d a, w.index.lookup id = some d ∧ unmarshalArticle d = .ok a ∧
      w1.index = w.index.filter (fun e => decide (e.1 ∉ [id])) ∧
      w1.rel.categories = decOrDelete w.rel.categories a.Category ∧
      w1.rel.tags = a.Tags.elems.foldl decOrDelete w.rel.tags := by
  have hidx := deleteOne_ok_index env id w w1 u h
  unfold deleteOne at h
  rw [bind_ok] at h
  obtain ⟨a, wa, hget, h⟩ := h
  obtain ⟨rfl, d, hd, ha⟩ := Get_ok env _ _ _ _ _ hget
  rw [bind_ok] at h
  obtain ⟨_, wb, hcat, h⟩ := h
  rw [bind_ok] at h
  obtain ⟨_, wc, htag, h⟩ := h
  rw [bind_ok] at h
  obtain ⟨_, wd, hcov, h⟩ := h
  rw [bind_ok] at h
  obtain ⟨imgs, we, hfind, h⟩ := h
  rw [bind_ok] at h
  obtain ⟨_, wf, hchg, h⟩ := h
  simp only [DecOrDeleteCategory, DecOrDeleteTag, InitImagesCategory, ChangeImagesCategory,
    Delete, step_ok] at hcat htag hcov hchg h
  obtain ⟨-, rfl⟩ := hcat
  obtain ⟨-, rfl⟩ := htag
  obtain ⟨-, rfl⟩ := hcov
  have hwe := FindIllustrations_ok _ _ _ _ _ _ hfind
  subst hwe
  obtain ⟨-, rfl⟩ := hchg
  obtain ⟨-, rfl⟩ := h
  exact ⟨d, a, hd, ha, hidx, rfl, rfl⟩

/-! ## The counter invariant -/

theorem refsCategory_of_decode (name id : String) (d : Doc) (a : Article)
    (h : unmarshalArticle d = .ok a) :
    refsCategory name (id, d) = decide (name ≠ "" ∧ a.Category = name) := by
  simp [refsCategory, h]

theorem refsTag_of_decode (name id : String) (d : Doc) (a : Article)
    (h : unmarshalArticle d = .ok a) :
    refsTag name (id, d) = decide (name ∈ a.Tags.elems) := by
  simp [refsTag, h]

theorem countP_refsCategory_empty (l : List (String × Doc)) :
    l.countP (refsCategory "") = 0 := by
  rw [List.countP_eq_zero]
  intro e _
  unfold refsCategory
  split <;> simp

theorem count_of_nodup (l : List String) (h : l.Nodup) (t : String) :
    l.count t = if t ∈ l then 1 else 0 := by
  by_cases ht : t ∈ l
  · rw [if_pos ht]
    exact List.count_eq_one_of_mem h ht
  · rw [if_neg ht]
    exact List.count_eq_zero_of_not_mem ht

theorem mem_of_lookup {α : Type} (l : List (String × α)) (k : String) (x : α)
    (h : l.lookup k = some x) : (k, x) ∈ l := by
  induction l with
  | nil => simp [List.lookup] at h
  | cons e rest ih =>
    rcases e with ⟨k2, y⟩
    by_cases hk : k = k2
    · subst hk
      simp only [List.lookup, beq_self_eq_true, Option.some.injEq] at h
      subst h
      exact List.mem_cons_self _ _
    · have hb : (k == k2) = false := by simpa using hk
      simp only [List.lookup, hb] at h
      exact List.mem_cons_of_mem _ (ih h)

theorem create_preserves (env : Env) (req : ArticleCreateReq) (w w1 : World) (u : Unit)
    (hcons : Consistent w) (htags : req.Tags.elems.Nodup)
    (hv : (req.VisibleRange : Int) < uintBound) (hnew : w.index.lookup env.newId = none)
    (h : ArticleCreate env req w = (.ok u, w1)) : Consistent w1 := by
  obtain ⟨⟨hcat, htag⟩, hids, hdist⟩ := hcons
  have hok : (ArticleCreate env req w).1 = .ok () := by rw [h]
  obtain ⟨hi, hc, ht⟩ := ArticleCreate_of_ok env req w hok
  rw [h] at hi hc ht
  simp only at hi hc ht
  have hdec : unmarshalArticle (marshalArticle (articleToCreate env.now req)) =
      .ok (articleToCreate env.now req) := by
    apply unmarshal_marshalArticle
    · exact hv
    · simp [articleToCreate, intBound]
    · simp [articleToCreate, intBound]
    · simp [articleToCreate, intBound]
  refine ⟨⟨?_, ?_⟩, ?_, ?_⟩
  · intro name
    rw [hc, hi, countP_append_single, refsCategory_of_decode name _ _ _ hdec]
    have hcn := hcat name
    by_cases h0 : req.Category = ""
    · have : ¬ (name ≠ "" ∧ (articleToCreate env.now req).Category = name) := by
        rintro ⟨h1, h2⟩
        apply h1
        rw [← h2]
        exact h0
      simp [h0, this, hcn]
    · by_cases h1 : name = req.Category
      · subst h1
        simp [h0, incOrCreate, hcn, incRow_rowOf, articleToCreate]
      · have : ¬ (name ≠ "" ∧ (articleToCreate env.now req).Category = name) := by
          rintro ⟨_, h2⟩
          exact h1 h2.symm
        simp [h0, incOrCreate, h1, this, hcn]
  · intro name
    rw [ht, hi, countP_append_single, refsTag_of_decode name _ _ _ hdec, foldl_incOrCreate,
      htag name, incRow_iterate_rowOf, count_of_nodup _ htags]
    by_cases hm : name ∈ req.Tags.elems
    · simp [hm, articleToCreate]
    · simp [hm, articleToCreate]
  · unfold IdsDistinct at hids ⊢
    rw [hi, List.map_append, List.nodup_append]
    refine ⟨hids, by simp, ?_⟩
    have hnot := (lookup_eq_none_iff_not_mem_keys _ _).mp hnew
    intro x hx hy
    simp only [List.map_cons, List.map_nil, List.mem_singleton] at hy
    subst hy
    exact hnot hx
  · intro e he a ha
    rw [hi, List.mem_append] at he
    rcases he with he | he
    · exact hdist e he a ha
    · simp only [List.mem_singleton] at he
      subst he
      rw [hdec] at ha
      cases ha
      exact htags

theorem deleteOne_preserves (env : Env) (id : String) (w w1 : World) (u : Unit)
    (hcons : Consistent w) (h : deleteOne env id w = (.ok u, w1)) : Consistent w1 := by
  obtain ⟨⟨hcat, htag⟩, hids, hdist⟩ := hcons
  obtain ⟨d, a, hd, ha, hi, hc, ht⟩ := deleteOne_ok env id w w1 u h
  have hnd : a.Tags.elems.Nodup := hdist (id, d) (mem_of_lookup _ _ _ hd) a ha
  refine ⟨⟨?_, ?_⟩, ?_, ?_⟩
  · intro name
    have hcount := countP_filter_id (refsCategory name) w.index id d hids hd
    rw [refsCategory_of_decode name id d a ha] at hcount
    rw [hc, hi]
    by_cases h1 : name = a.Category
    · subst h1
      simp only [decOrDelete, if_true, hcat, decRow_rowOf]
      by_cases h0 : a.Category = ""
      · have hz := countP_refsCategory_empty w.index
        have hz2 := countP_refsCategory_empty
          (w.index.filter (fun e => decide (e.1 ∉ [id])))
        rw [h0, hz, hz2]
      · simp only [ne_eq, h0, not_false_eq_true, and_self, decide_True, if_true] at hcount
        congr 1
        omega
    · have : ¬ (name ≠ "" ∧ a.Category = name) := fun hh => h1 hh.2.symm
      simp only [this, decide_False, Bool.false_eq_true, if_false, Nat.add_zero] at hcount
      simp only [decOrDelete, h1, if_false, hcat, hcount]
  · intro name
    have hcount := countP_filter_id (refsTag name) w.index id d hids hd
    rw [refsTag_of_decode name id d a ha] at hcount
    rw [ht, hi, foldl_decOrDelete, htag name, decRow_iterate_rowOf, count_of_nodup _ hnd]
    congr 1
    by_cases hm : name ∈ a.Tags.elems
    · simp only [hm, decide_True, if_true] at hcount ⊢
      omega
    · simp only [hm, decide_False, Bool.false_eq_true, if_false] at hcount ⊢
      omega
  · unfold IdsDistinct at hids ⊢
    rw [hi]
    exact hids.sublist ((List.filter_sublist _).map Prod.fst)
  · intro e he a2 ha2
    rw [hi] at he
    exact hdist e (List.mem_of_mem_filter he) a2 ha2

theorem deleteLoop_preserves (env : Env) (ids : List String) (w w1 : World) (u : Unit)
    (hcons : Consistent w) (h : deleteLoop env ids w = (.ok u, w1)) : Consistent w1 := by
  induction ids generalizing w with
  | nil =>
    rw [deleteLoop_nil] at h
    cases h
    exact hcons
  | cons id rest ih =>
    rw [deleteLoop_cons] at h
    rcases h1 : deleteOne env id w with ⟨r, w2⟩
    rw [h1] at h
    cases r with
    | error e => simp at h
    | ok a => exact ih w2 (deleteOne_preserves env id w w2 a hcons h1) h

theorem delete_preserves (env : Env) (req : ArticleDeleteReq) (w w1 : World) (u : Unit)
    (hcons : Consistent w) (h : ArticleDelete env req w = (.ok u, w1)) : Consistent w1 := by
  by_cases h0 : req.IDs = []
  · have : w1 = w := by
      simp only [ArticleDelete, h0, List.length_nil, if_true, pure_ok] at h
      exact h.2
    rw [this]
    exact hcons
  · rw [ArticleDelete_of_ne env req h0, Transaction_ok] at h
    exact deleteLoop_preserves env req.IDs w w1 u hcons h

theorem map_fst_replaceDoc (l : List (String × Doc)) (id : String) (f : Doc → Doc) :
    (replaceDoc l id f).map Prod.fst = l.map Prod.fst := by
  unfold replaceDoc
  rw [List.map_map]
  apply List.map_congr_left
  intro e _
  by_cases h : e.1 = id <;> simp [h]

theorem mem_replaceDoc (l : List (String × Doc)) (id : String) (f : Doc → Doc)
    (e : String × Doc) (h : e ∈ replaceDoc l id f) :
    e ∈ l ∨ ∃ x, e.2 = f x := by
  unfold replaceDoc at h
  rw [List.mem_map] at h
  obtain ⟨e0, he0, heq⟩ := h
  by_cases hk : e0.1 = id
  · rw [if_pos hk] at heq
    exact Or.inr ⟨e0.2, by rw [← heq]⟩
  · rw [if_neg hk] at heq
    exact Or.inl (heq ▸ he0)

theorem tags_of_merged (x : Doc) (p : ArticleUpdateDoc) (a : Article)
    (h : unmarshalArticle (mergeDoc x (marshalUpdate p)) = .ok a) : a.Tags = p.Tags := by
  rw [unmarshalArticle_ok_iff] at h
  have h7 := h.2.2.2.2.2.2.1
  cases ht : p.Tags <;>
    simp [decodeStrings, lookup_merge_update, encodeStrings, ht] at h7 <;>
    exact h7.symm

theorem categoriesAfterUpdate_apply (c : Counter) (o n name : String) (hon : o ≠ n) :
    categoriesAfterUpdate c o n name =
      if n ≠ "" ∧ name = n then incRow (c name)
      else if o ≠ "" ∧ name = o then decRow (c name)
      else c name := by
  unfold categoriesAfterUpdate
  rw [if_neg hon]
  by_cases ho0 : o = "" <;> by_cases hn0 : n = "" <;> by_cases h1 : name = n <;>
    by_cases h2 : name = o <;>
    simp_all [incOrCreate, decOrDelete]

theorem categoriesAfterUpdate_rowOf (c : Counter) (o n name : String) (k k2 : Nat)
    (hcn : c name = rowOf k)
    (hk : k2 + (if name ≠ "" ∧ o = name then 1 else 0) =
      k + (if name ≠ "" ∧ n = name then 1 else 0)) :
    categoriesAfterUpdate c o n name = rowOf k2 := by
  by_cases hon : o = n
  · subst hon
    unfold categoriesAfterUpdate
    rw [if_pos rfl, hcn]
    congr 1
    omega
  · rw [categoriesAfterUpdate_apply c o n name hon, hcn]
    by_cases h1 : n ≠ "" ∧ name = n
    · obtain ⟨hn0, rfl⟩ := h1
      have ha : (name ≠ "" ∧ name = name) := ⟨hn0, rfl⟩
      have hb : ¬ (name ≠ "" ∧ o = name) := fun h => hon h.2
      rw [if_pos ha, if_neg hb] at hk
      rw [if_pos ⟨hn0, rfl⟩, incRow_rowOf]
      congr 1
      omega
    · rw [if_neg h1]
      have hb : ¬ (name ≠ "" ∧ n = name) := by
        rintro ⟨h3, h4⟩
        apply h1
        exact ⟨by rw [h4]; exact h3, h4.symm⟩
      rw [if_neg hb] at hk
      by_cases h2 : o ≠ "" ∧ name = o
      · obtain ⟨ho0, rfl⟩ := h2
        have ha : (name ≠ "" ∧ name = name) := ⟨ho0, rfl⟩
        rw [if_pos ha] at hk
        rw [if_pos ⟨ho0, rfl⟩, decRow_rowOf]
        congr 1
        omega
      · rw [if_neg h2]
        have ha : ¬ (name ≠ "" ∧ o = name) := by
          rintro ⟨h3, h4⟩
          apply h2
          exact ⟨by rw [h4]; exact h3, h4.symm⟩
        rw [if_neg ha] at hk
        congr 1
        omega

theorem update_count_category (env : Env) (req : ArticleUpdateReq) (l : List (String × Doc))
    (d : Doc) (old : Article) (name : String) (hids : (l.map Prod.fst).Nodup)
    (hd : l.lookup req.ID = some d) (hold : unmarshalArticle d = .ok old) :
    (replaceDoc l req.ID
        (fun x => mergeDoc x (marshalUpdate (articleToUpdate env.now req)))).countP
          (refsCategory name) + (if name ≠ "" ∧ old.Category = name then 1 else 0) =
      l.countP (refsCategory name) + (if name ≠ "" ∧ req.Category = name then 1 else 0) := by
  have hnew := unmarshal_mergeDoc d old (articleToUpdate env.now req) hold
  have hcount := countP_replaceDoc (refsCategory name) l req.ID d
    (fun x => mergeDoc x (marshalUpdate (articleToUpdate env.now req))) hids hd
  rw [refsCategory_of_decode name req.ID d old hold,
    refsCategory_of_decode name req.ID _ _ hnew] at hcount
  simp only [decide_eq_true_eq] at hcount
  exact hcount

theorem update_count_tag (env : Env) (req : ArticleUpdateReq) (l : List (String × Doc))
    (d : Doc) (old : Article) (name : String) (hids : (l.map Prod.fst).Nodup)
    (hd : l.lookup req.ID = some d) (hold : unmarshalArticle d = .ok old) :
    (replaceDoc l req.ID
        (fun x => mergeDoc x (marshalUpdate (articleToUpdate env.now req)))).countP
          (refsTag name) + (if name ∈ old.Tags.elems then 1 else 0) =
      l.countP (refsTag name) + (if name ∈ req.Tags.elems then 1 else 0) := by
  have hnew := unmarshal_mergeDoc d old (articleToUpdate env.now req) hold
  have hcount := countP_replaceDoc (refsTag name) l req.ID d
    (fun x => mergeDoc x (marshalUpdate (articleToUpdate env.now req))) hids hd
  rw [refsTag_of_decode name req.ID d old hold,
    refsTag_of_decode name req.ID _ _ hnew] at hcount
  simp only [decide_eq_true_eq] at hcount
  exact hcount

theorem tagsAfterUpdate_rowOf (c : Counter) (o n : List String) (name : String) (k k2 : Nat)
    (ho : o.Nodup) (hn : n.Nodup) (hcn : c name = rowOf k)
    (hk : k2 + (if name ∈ o then 1 else 0) = k + (if name ∈ n then 1 else 0)) :
    tagsAfterUpdate c o n name = rowOf k2 := by
  rw [tagsAfterUpdate_apply _ _ _ ho hn, hcn]
  by_cases h1 : name ∈ o <;> by_cases h2 : name ∈ n
  · rw [if_pos h1, if_pos h2] at hk
    rw [if_neg (fun hh => hh.2 h2), if_neg (fun hh => hh.2 h1)]
    congr 1
    omega
  · rw [if_pos h1, if_neg h2] at hk
    rw [if_pos ⟨h1, h2⟩, decRow_rowOf]
    congr 1
    omega
  · rw [if_neg h1, if_pos h2] at hk
    rw [if_neg (fun hh => h1 hh.1), if_pos ⟨h2, h1⟩, incRow_rowOf]
    congr 1
    omega
  · rw [if_neg h1, if_neg h2] at hk
    rw [if_neg (fun hh => h1 hh.1), if_neg (fun hh => h2 hh.1)]
    congr 1
    omega

theorem update_preserves (env : Env) (req : ArticleUpdateReq) (w w1 : World) (u : Unit)
    (hcons : Consistent w) (htags : req.Tags.elems.Nodup)
    (h : UpdateArticle env req w = (.ok u, w1)) : Consistent w1 := by
  obtain ⟨⟨hcat, htag⟩, hids, hdist⟩ := hcons
  obtain ⟨d, old, hd, hold, hi, hc, ht⟩ := UpdateArticle_ok env req w w1 u h
  have hnd : old.Tags.elems.Nodup := hdist (req.ID, d) (mem_of_lookup _ _ _ hd) old hold
  refine ⟨⟨?_, ?_⟩, ?_, ?_⟩
  · intro name
    rw [hc, hi]
    exact categoriesAfterUpdate_rowOf _ _ _ _ _ _ (hcat name)
      (update_count_category env req w.index d old name hids hd hold)
  · intro name
    rw [ht, hi]
    exact tagsAfterUpdate_rowOf _ _ _ _ _ _ hnd htags (htag name)
      (update_count_tag env req w.index d old name hids hd hold)
  · unfold IdsDistinct at hids ⊢
    rw [hi, map_fst_replaceDoc]
    exact hids
  · intro e he a ha
    rw [hi] at he
    rcases mem_replaceDoc _ _ _ _ he with he | ⟨x, hx⟩
    · exact hdist e he a ha
    · rw [hx] at ha
      rw [tags_of_merged x (articleToUpdate env.now req) a ha]
      exact htags

theorem emptyWorld_consistent : Consistent emptyWorld := by
  refine ⟨⟨?_, ?_⟩, ?_, ?_⟩
  · intro name
    simp [emptyWorld, rowOf]
  · intro name
    simp [emptyWorld, rowOf]
  · simp [IdsDistinct, emptyWorld]
  · intro e he
    simp [emptyWorld] at he

/-- C1, as stated, fails: on the empty world the counter invariant holds; creating an
article whose tag list is `[a, a]` succeeds, and afterwards the counter of the tag `a`
is 2 while one indexed article references `a`, so the invariant does not hold. -/
theorem duplicate_tags_break_invariant :
    CountersMatch emptyWorld ∧
    (ArticleCreate quietEnv duplicateTagReq emptyWorld).1 = .ok () ∧
    (ArticleCreate quietEnv duplicateTagReq emptyWorld).2.rel.tags "a" = some 2 ∧
    (ArticleCreate quietEnv duplicateTagReq emptyWorld).2.index.countP (refsTag "a") = 1 ∧
    ¬ CountersMatch (ArticleCreate quietEnv duplicateTagReq emptyWorld).2 := by
  have h2 : (ArticleCreate quietEnv duplicateTagReq emptyWorld).2.rel.tags "a" = some 2 := by
    rfl
  have h1 : (ArticleCreate quietEnv duplicateTagReq emptyWorld).2.index.countP
      (refsTag "a") = 1 := by
    rfl
  refine ⟨emptyWorld_consistent.1, by rfl, h2, h1, ?_⟩
  intro hm
  have h := hm.2 "a"
  rw [h2, h1] at h
  simp [rowOf] at h

/-- C1, amended: with the counter store as a map from name to count, increment-or-create
and decrement-or-delete as in the claim and `util.DiffArrays` as set difference, and
for indexed articles and requests whose tag lists contain no duplicates: if before a
successful `ArticleCreate`, `UpdateArticle` or `ArticleDelete` every category counter
and every tag counter equals the number of indexed articles that reference that name
(names referenced by no article having no row), then the same holds after the
operation. The index is a map from id to document, the id given to a created document
is new, and the request's visible range is a `uint`. -/
theorem counters_invariant_preserved (env : Env) (w w1 : World) (hcons : Consistent w) :
    (∀ req : ArticleCreateReq, req.Tags.elems.Nodup → (req.VisibleRange : Int) < uintBound →
      w.index.lookup env.newId = none → ArticleCreate env req w = (.ok (), w1) →
      Consistent w1) ∧
    (∀ req : ArticleUpdateReq, req.Tags.elems.Nodup →
      UpdateArticle env req w = (.ok (), w1) → Consistent w1) ∧
    (∀ req : ArticleDeleteReq, ArticleDelete env req w = (.ok (), w1) → Consistent w1) :=
  ⟨fun req ht hv hnew h => create_preserves env req w w1 () hcons ht hv hnew h,
    fun req ht h => update_preserves env req w w1 () hcons ht h,
    fun req h => delete_preserves env req w w1 () hcons h⟩

theorem counters_invariant_preserved_witness :
    Consistent emptyWorld ∧ Consistent storedWorld :=
  ⟨emptyWorld_consistent,
    (counters_invariant_preserved quietEnv emptyWorld storedWorld emptyWorld_consistent).1
      sampleCreateReq (by decide) (by decide) (by rfl) (by rfl)⟩

/-! ## Reading an updated article back -/

theorem lookup_replaceDoc (l : List (String × Doc)) (id : String) (f : Doc → Doc) :
    (replaceDoc l id f).lookup id = (l.lookup id).map f := by
  unfold replaceDoc
  induction l with
  | nil => rfl
  | cons e rest ih =>
    rcases e with ⟨k, x⟩
    by_cases hk : k = id
    · subst hk
      show List.lookup k ((if k = k then (k, f x) else (k, x)) :: _) = _
      rw [if_pos rfl]
      simp [List.lookup]
    · have hb : (id == k) = false := by
        simpa using fun h : id = k => hk h.symm
      show List.lookup id ((if k = id then (k, f x) else (k, x)) :: _) = _
      rw [if_neg hk]
      simp only [List.lookup, hb]
      exact ih

/-- After a successful `UpdateArticle` the by-id read returns the stored article with
the request's cover, title, keyword (the title), category, tags, abstract and content,
the new update time and the old creation time; its visible range, views, comments and
likes are those of the stored article. -/
theorem update_read_back (env env2 : Env) (req : ArticleUpdateReq) (w w1 : World)
    (h : UpdateArticle env req w = (.ok (), w1))
    (hq : env2.fails w1.log (.esGet req.ID) = false) :
    ∃ d old, w.index.lookup req.ID = some d ∧ unmarshalArticle d = .ok old ∧
      (Get env2 req.ID w1).1 =
        .ok { old with UpdatedAt := env.now, Cover := req.Cover, Title := req.Title,
                       Keyword := req.Title, Category := req.Category, Tags := req.Tags,
                       Abstract := req.Abstract, Content := req.Content } := by
  obtain ⟨d, old, hd, hold, hi, -, -⟩ := UpdateArticle_ok env req w w1 () h
  refine ⟨d, old, hd, hold, ?_⟩
  have hnew := unmarshal_mergeDoc d old (articleToUpdate env.now req) hold
  have hl : w1.index.lookup req.ID =
      some (mergeDoc d (marshalUpdate (articleToUpdate env.now req))) := by
    rw [hi, lookup_replaceDoc, hd]
    rfl
  rw [Get_eq, if_neg (by simp [hq]), hl]
  simp only [hnew]
  rfl

/-! ## Reconciliation of the counters on update -/

/-- Closed form of a guarded collaborator call followed by the rest of a block. -/
theorem guard_step_apply (c : Prop) [Decidable c] (env : Env) (step : String) (call : Call)
    (effect : World → World) (f : Op Unit) (w : World) :
    (do
      if c then
        Op.wrapErr step (invoke env call effect)
      f) w =
      if c then
        (if env.fails w.log call then (.error (.wrap step .dependency), w.record call)
         else f (effect (w.record call)))
      else f w := by
  by_cases hc : c
  · simp only [hc, if_true, bind_apply, step_apply]
    split_ifs <;> rfl
  · simp only [hc, if_false, bind_apply]
    rfl

/-- Closed form of `updateCategoryCounts`. -/
theorem updateCategoryCounts_eq (env : Env) (o n : String) (w : World) :
    updateCategoryCounts env o n w =
      if o = n then (.ok (), w)
      else if o ≠ "" then
        (if env.fails w.log (.decOrDeleteCategory o) then
          (.error (.wrap "更新分类计数失败" .dependency), w.record (.decOrDeleteCategory o))
         else if n ≠ "" then
          (if env.fails (w.log ++ [.decOrDeleteCategory o]) (.incOrCreateCategory n) then
            (.error (.wrap "更新分类计数失败" .dependency),
              ((w.record (.decOrDeleteCategory o)).mapCategories
                (fun c => decOrDelete c o)).record (.incOrCreateCategory n))
           else
            (.ok (), (((w.record (.decOrDeleteCategory o)).mapCategories
                (fun c => decOrDelete c o)).record (.incOrCreateCategory n)).mapCategories
                  (fun c => incOrCreate c n)))
         else (.ok (), (w.record (.decOrDeleteCategory o)).mapCategories
                (fun c => decOrDelete c o)))
      else if n ≠ "" then
        (if env.fails w.log (.incOrCreateCategory n) then
          (.error (.wrap "更新分类计数失败" .dependency), w.record (.incOrCreateCategory n))
         else (.ok (), (w.record (.incOrCreateCategory n)).mapCategories
                (fun c => incOrCreate c n)))
      else (.ok (), w) := by
  unfold updateCategoryCounts
  by_cases h : o = n
  · simp only [h, if_true]
    rfl
  · simp only [h, if_false, DecOrDeleteCategory, IncOrCreateCategory]
    rw [guard_step_apply]
    by_cases ho : o = "" <;> by_cases hn : n = ""
    · simp only [ho, hn, ne_eq, not_true_eq_false, if_false]
      rfl
    · simp only [ho, ne_eq, not_true_eq_false, if_false]
      rw [guard_step_apply]
      simp only [hn, ne_eq, not_false_eq_true, if_true]
      split_ifs <;> rfl
    · simp only [ho, hn, ne_eq, not_false_eq_true, not_true_eq_false, if_true, if_false]
      split_ifs <;> rfl
    · simp only [ho, hn, ne_eq, not_false_eq_true, if_true, bind_apply, step_apply]
      by_cases h1 : env.fails w.log (Call.decOrDeleteCategory o) = true
      · simp only [h1, if_true]
      · by_cases h2 : env.fails (w.log ++ [Call.decOrDeleteCategory o])
            (Call.incOrCreateCategory n) = true
        · simp [h1, h2, World.record, World.mapCategories]
        · simp [h1, h2, World.record, World.mapCategories]

/-- C16: category reconciliation on update. With equal names `updateCategoryCounts`
succeeds without any call. With different names the calls of the run are the
decrement-or-delete of the old name, present exactly when the old name is non-empty,
followed by the increment-or-create of the new name, present exactly when the new name is
non-empty and the decrement (if any) did not fail, and nothing else. If the decrement
fails the run returns an error and issues no increment. -/
theorem category_reconciliation (env : Env) (o n : String) (w : World) :
    let r := updateCategoryCounts env o n w
    let dec := Call.decOrDeleteCategory o
    let inc := Call.incOrCreateCategory n
    let decFails := o ≠ "" ∧ env.fails w.log dec = true
    (o = n → r = (.ok (), w) ∧ callsSince w r.2 = []) ∧
    (o ≠ n →
      callsSince w r.2 =
        (if o ≠ "" then [dec] else []) ++ (if n ≠ "" ∧ ¬ decFails then [inc] else [])) ∧
    (o ≠ n → decFails →
      r.1 = .error (.wrap "更新分类计数失败" .dependency) ∧ callsSince w r.2 = [dec] ∧
        r.2.rel = w.rel) := by
  intro r dec inc decFails
  simp only [r, dec, inc, decFails, updateCategoryCounts_eq]
  refine ⟨?_, ?_, ?_⟩
  · intro h
    simp [h, callsSince]
  · intro h
    by_cases ho : o = "" <;> by_cases hn : n = "" <;>
      simp only [h, ho, hn, if_false, if_true, ne_eq, not_true_eq_false, not_false_eq_true] <;>
      split_ifs <;>
      simp_all [callsSince, World.record, World.mapCategories]
  · rintro h ⟨ho, hf⟩
    simp [h, ho, hf, callsSince, World.record]
/-- Closed form of two guarded collaborator calls in a row, the shape shared by the
reconciliation helpers of `UpdateArticle`. -/
theorem two_guard_steps (c1 c2 : Prop) [Decidable c1] [Decidable c2] (env : Env)
    (s1 s2 : String) (call1 call2 : Call) (eff1 eff2 : World → World) (w : World) :
    (do
      if c1 then
        Op.wrapErr s1 (invoke env call1 eff1)
      if c2 then
        Op.wrapErr s2 (invoke env call2 eff2)
      (pure () : Op Unit)) w =
      if c1 ∧ env.fails w.log call1 = true then
        (.error (.wrap s1 .dependency), w.record call1)
      else if c2 ∧ env.fails (if c1 then eff1 (w.record call1) else w).log call2 = true then
        (.error (.wrap s2 .dependency), (if c1 then eff1 (w.record call1) else w).record call2)
      else
        (.ok (),
          if c2 then eff2 ((if c1 then eff1 (w.record call1) else w).record call2)
          else (if c1 then eff1 (w.record call1) else w)) := by
  rw [guard_step_apply]
  by_cases h1 : c1
  · by_cases hf : env.fails w.log call1 = true
    · simp only [h1, hf, if_true, and_self]
    · simp only [h1, hf, if_true, if_false, and_false]
      rw [guard_step_apply]
      by_cases h2 : c2
      · simp only [h2, if_true, true_and]
        split_ifs <;> rfl
      · simp only [h2, if_false, false_and]
        rfl
  · simp only [h1, if_false, false_and]
    rw [guard_step_apply]
    by_cases h2 : c2
    · simp only [h2, if_true, true_and]
      split_ifs <;> rfl
    · simp only [h2, if_false, false_and]
      rfl

/-- Closed form of `updateTagCounts`. -/
theorem updateTagCounts_eq (env : Env) (o n : List String) (w : World) :
    updateTagCounts env o n w =
      let added := (DiffArrays o n).1
      let removed := (DiffArrays o n).2
      let w1 := if removed.length > 0 then
          (w.record (.decOrDeleteTag removed)).mapTags (fun c => removed.foldl decOrDelete c)
        else w
      if removed.length > 0 ∧ env.fails w.log (.decOrDeleteTag removed) = true then
        (.error (.wrap "更新标签计数失败" .dependency), w.record (.decOrDeleteTag removed))
      else if added.length > 0 ∧ env.fails w1.log (.addOrIncTag added) = true then
        (.error (.wrap "更新标签计数失败" .dependency), w1.record (.addOrIncTag added))
      else
        (.ok (),
          if added.length > 0 then
            (w1.record (.addOrIncTag added)).mapTags (fun c => added.foldl incOrCreate c)
          else w1) := by
  unfold updateTagCounts
  simp only [DecOrDeleteTag, AddOrIncTag]
  exact two_guard_steps _ _ env _ _ _ _ _ _ w
/-- The two directions of `DiffArrays` depend on the collections only up to the order
of their elements. -/
theorem DiffArrays_perm (o n o2 n2 : List String) (ho : o.Perm o2) (hn : n.Perm n2) :
    (DiffArrays o n).1.Perm (DiffArrays o2 n2).1 ∧
    (DiffArrays o n).2.Perm (DiffArrays o2 n2).2 := by
  unfold DiffArrays
  have h1 : (fun x => decide (x ∉ o)) = (fun x => decide (x ∉ o2)) := by
    funext x
    simp only [ho.mem_iff]
  have h2 : (fun x => decide (x ∉ n)) = (fun x => decide (x ∉ n2)) := by
    funext x
    simp only [hn.mem_iff]
  simp only [h1, h2]
  exact ⟨hn.filter _, ho.filter _⟩

/-- C15: tag reconciliation on update. The decrement list of `updateTagCounts` holds
exactly the tags of the old list that the new one lacks, the increment list exactly the
tags of the new list that the old one lacks. The calls of the run are the
decrement-or-delete of the decrement list, present exactly when that list is non-empty,
followed by the increment-or-create of the increment list, present exactly when that list
is non-empty and the decrement (if any) did not fail, and nothing else; no call mentions a
tag present in both lists. When no call fails the run succeeds, and a successful run
leaves every tag row decremented once per occurrence in the decrement list and then
incremented once per occurrence in the increment list. Reordering either list reorders
the two call lists and leaves the resulting counters the same. -/
theorem tag_reconciliation (env : Env) (o n : List String) (w : World) :
    let r := updateTagCounts env o n w
    let removed := (DiffArrays o n).2
    let added := (DiffArrays o n).1
    let decFails := removed ≠ [] ∧ env.fails w.log (.decOrDeleteTag removed) = true
    (∀ t, t ∈ removed ↔ t ∈ o ∧ t ∉ n) ∧
    (∀ t, t ∈ added ↔ t ∈ n ∧ t ∉ o) ∧
    callsSince w r.2 =
      (if removed ≠ [] then [Call.decOrDeleteTag removed] else []) ++
        (if added ≠ [] ∧ ¬ decFails then [Call.addOrIncTag added] else []) ∧
    (∀ t, t ∈ o → t ∈ n →
      (∀ l, Call.decOrDeleteTag l ∈ callsSince w r.2 → t ∉ l) ∧
      (∀ l, Call.addOrIncTag l ∈ callsSince w r.2 → t ∉ l)) ∧
    ((∀ l c, env.fails l c = false) → r.1 = .ok ()) ∧
    (∀ u w1, r = (.ok u, w1) →
      ∀ t, w1.rel.tags t = incRow^[added.count t] (decRow^[removed.count t] (w.rel.tags t))) ∧
    (∀ o2 n2, o.Perm o2 → n.Perm n2 →
      removed.Perm (DiffArrays o2 n2).2 ∧ added.Perm (DiffArrays o2 n2).1 ∧
      tagsAfterUpdate w.rel.tags o2 n2 = tagsAfterUpdate w.rel.tags o n) := by
  intro r removed added decFails
  have hrem : ∀ t, t ∈ removed ↔ t ∈ o ∧ t ∉ n := by
    intro t
    simp [removed, DiffArrays, List.mem_filter]
  have hadd : ∀ t, t ∈ added ↔ t ∈ n ∧ t ∉ o := by
    intro t
    simp [added, DiffArrays, List.mem_filter]
  have hcalls : callsSince w r.2 =
      (if removed ≠ [] then [Call.decOrDeleteTag removed] else []) ++
        (if added ≠ [] ∧ ¬ decFails then [Call.addOrIncTag added] else []) := by
    simp only [r, decFails, updateTagCounts_eq]
    by_cases h1 : removed = [] <;> by_cases h2 : added = [] <;>
      by_cases h3 : env.fails w.log (Call.decOrDeleteTag removed) = true <;>
      simp only [removed, added] at h1 h2 h3 <;>
      simp only [removed, added, h1, h2, h3] <;>
      split_ifs <;>
      simp_all [callsSince, World.record, World.mapTags]
  refine ⟨hrem, hadd, hcalls, ?_, ?_, ?_, ?_⟩
  · intro t hto htn
    rw [hcalls]
    constructor
    · intro l hl
      have : l = removed := by
        split_ifs at hl <;> simp_all
      rw [this, hrem]
      exact fun h => h.2 htn
    · intro l hl
      have : l = added := by
        split_ifs at hl <;> simp_all
      rw [this, hadd]
      exact fun h => h.2 hto
  · intro hq
    simp only [r, updateTagCounts_eq, hq]
    simp
  · intro u w1 h t
    have h2 := (updateTagCounts_ok env o n w w1 u h).2.2
    rw [h2]
    unfold tagsAfterUpdate
    rw [foldl_incOrCreate, foldl_decOrDelete]
  · intro o2 n2 ho hn
    have hp := DiffArrays_perm o n o2 n2 ho hn
    refine ⟨hp.2, hp.1, ?_⟩
    funext t
    unfold tagsAfterUpdate
    rw [foldl_incOrCreate, foldl_decOrDelete, foldl_incOrCreate, foldl_decOrDelete,
      hp.1.count_eq, hp.2.count_eq]

/-! ## Image-only update -/

/-- Closed form of `updateIllustrationsCategory`. -/
theorem updateIllustrationsCategory_eq (env : Env) (o n : String) (w : World) :
    updateIllustrationsCategory env o n w =
      let oldUrls := (env.findIllustrations o).getD []
      let newUrls := (env.findIllustrations n).getD []
      let added := (DiffArrays oldUrls newUrls).1
      let removed := (DiffArrays oldUrls newUrls).2
      let w1 := if removed.length > 0 then
          (w.record (.initImagesCategory removed)).mapImages (fun i => reclassify i removed 0)
        else w
      if removed.length > 0 ∧ env.fails w.log (.initImagesCategory removed) = true then
        (.error (.wrap "初始化插图类别失败" .dependency), w.record (.initImagesCategory removed))
      else if added.length > 0 ∧ env.fails w1.log (.changeImagesCategory added 4) = true then
        (.error (.wrap "更新插图类别失败" .dependency),
          w1.record (.changeImagesCategory added 4))
      else
        (.ok (),
          if added.length > 0 then
            (w1.record (.changeImagesCategory added 4)).mapImages
              (fun i => reclassify i added 4)
          else w1) := by
  unfold updateIllustrationsCategory
  simp only [InitImagesCategory, ChangeImagesCategory]
  cases env.findIllustrations o <;> cases env.findIllustrations n <;>
    exact two_guard_steps _ _ env _ _ _ _ _ _ w

theorem reclassify_eq (images : String → Nat) (urls : List String) (category : Nat) :
    reclassify images urls category = fun u => if u ∈ urls then category else images u := rfl

/-- What the two guarded reclassification calls of `updateIllustrationsCategory` leave
of a world, for any list of removed and of added URLs. -/
theorem illustrations_block_run (env : Env) (removed added : List String) (w : World) :
    let init := Call.initImagesCategory removed
    let change := Call.changeImagesCategory added 4
    let initFails := removed ≠ [] ∧ env.fails w.log init = true
    let l1 := if removed ≠ [] then w.log ++ [init] else w.log
    let changeFails := added ≠ [] ∧ env.fails l1 change = true
    let r := (do
      if removed.length > 0 then
        Op.wrapErr "初始化插图类别失败" (InitImagesCategory env removed)
      if added.length > 0 then
        Op.wrapErr "更新插图类别失败" (ChangeImagesCategory env added 4)
      (pure () : Op Unit)) w
    r.2.index = w.index ∧ r.2.rel.categories = w.rel.categories ∧
    r.2.rel.tags = w.rel.tags ∧
    r.2.log = l1 ++ (if added ≠ [] ∧ ¬ initFails then [change] else []) ∧
    (initFails → r.1 = .error (.wrap "初始化插图类别失败" .dependency) ∧ r.2.rel = w.rel) ∧
    (¬ initFails → changeFails → r.1 = .error (.wrap "更新插图类别失败" .dependency)) ∧
    (¬ initFails → ¬ changeFails → r.1 = .ok () ∧
      r.2.rel.images = fun u =>
        if u ∈ added then 4 else if u ∈ removed then 0 else w.rel.images u) := by
  intro init change initFails l1 changeFails r
  simp only [r, initFails, changeFails, l1, init, change, InitImagesCategory,
    ChangeImagesCategory, two_guard_steps]
  by_cases h1 : removed = []
  · subst h1
    by_cases h2 : added = []
    · subst h2
      simp
    · have hA : 0 < added.length := List.length_pos.mpr h2
      by_cases h4 : env.fails w.log (Call.changeImagesCategory added 4) = true
      · simp [h2, hA, h4, World.record]
      · simp [h2, hA, h4, World.record, World.mapImages, reclassify_eq]
  · have hR : 0 < removed.length := List.length_pos.mpr h1
    by_cases h3 : env.fails w.log (Call.initImagesCategory removed) = true
    · simp [h1, hR, h3, World.record]
    · by_cases h2 : added = []
      · subst h2
        simp [h1, hR, h3, World.record, World.mapImages, reclassify_eq]
      · have hA : 0 < added.length := List.length_pos.mpr h2
        by_cases h4 : env.fails (w.log ++ [Call.initImagesCategory removed])
            (Call.changeImagesCategory added 4) = true
        · simp [h1, h2, hR, hA, h3, h4, World.record, World.mapImages]
        · simp [h1, h2, hR, hA, h3, h4, World.record, World.mapImages, reclassify_eq]

/-- What `updateIllustrationsCategory` leaves of a world: the index, the counters, the
log extended by its calls, and on success the reclassified images. -/
theorem updateIllustrationsCategory_run (env : Env) (o n : String) (w : World) :
    let oldUrls := (env.findIllustrations o).getD []
    let newUrls := (env.findIllustrations n).getD []
    let added := (DiffArrays oldUrls newUrls).1
    let removed := (DiffArrays oldUrls newUrls).2
    let init := Call.initImagesCategory removed
    let change := Call.changeImagesCategory added 4
    let initFails := removed ≠ [] ∧ env.fails w.log init = true
    let l1 := if removed ≠ [] then w.log ++ [init] else w.log
    let changeFails := added ≠ [] ∧ env.fails l1 change = true
    let r := updateIllustrationsCategory env o n w
    r.2.index = w.index ∧ r.2.rel.categories = w.rel.categories ∧
    r.2.rel.tags = w.rel.tags ∧
    r.2.log = l1 ++ (if added ≠ [] ∧ ¬ initFails then [change] else []) ∧
    (initFails → r.1 = .error (.wrap "初始化插图类别失败" .dependency) ∧ r.2.rel = w.rel) ∧
    (¬ initFails → changeFails → r.1 = .error (.wrap "更新插图类别失败" .dependency)) ∧
    (¬ initFails → ¬ changeFails → r.1 = .ok () ∧
      r.2.rel.images = fun u =>
        if u ∈ added then 4 else if u ∈ removed then 0 else w.rel.images u) := by
  unfold updateIllustrationsCategory
  cases env.findIllustrations o <;> cases env.findIllustrations n <;>
    exact illustrations_block_run env _ _ w
/-- `UpdateArticle` on a stored article whose category, tags and cover the request
repeats: the read, the reconciliation of the illustrations and the index write. -/
theorem UpdateArticle_images_eq (env : Env) (req : ArticleUpdateReq) (w : World) (d : Doc)
    (old : Article) (hd : w.index.lookup req.ID = some d) (hold : unmarshalArticle d = .ok old)
    (hcover : req.Cover = old.Cover) (hcat : req.Category = old.Category)
    (htags : req.Tags.elems = old.Tags.elems) :
    UpdateArticle env req w =
      let payload := marshalUpdate (articleToUpdate env.now req)
      if env.fails w.log (.esGet req.ID) = true then
        (.error (.wrap "获取旧文章失败" .dependency),
          { index := w.index, rel := w.rel, log := w.log ++ [.esGet req.ID] })
      else
        match updateIllustrationsCategory env old.Content req.Content
            (w.record (.esGet req.ID)) with
        | (.error e, w2) => (.error e, { w2 with rel := w.rel })
        | (.ok _, w2) =>
          if env.fails w2.log (.esUpdate req.ID payload) = true then
            (.error (.wrap "更新文章内容失败" .dependency),
              { index := w2.index, rel := w.rel, log := w2.log ++ [.esUpdate req.ID payload] })
          else
            (.ok (),
              { index := replaceDoc w2.index req.ID (fun x => mergeDoc x payload),
                rel := w2.rel, log := w2.log ++ [.esUpdate req.ID payload] }) := by
  unfold UpdateArticle
  have h1 : (articleToUpdate env.now req).Category = old.Category := hcat
  have h2 : (articleToUpdate env.now req).Tags.elems = old.Tags.elems := htags
  have h3 : (articleToUpdate env.now req).Cover = old.Cover := hcover
  have h4 : (articleToUpdate env.now req).Content = req.Content := rfl
  by_cases hg : env.fails w.log (.esGet req.ID) = true
  · simp [Transaction, bind_apply, Get_wrap_eq, hg, World.record]
  · simp only [Transaction, bind_apply, Get_wrap_eq, hd, hold, h1, h2, h3, h4, hg,
      Bool.false_eq_true, if_false]
    simp only [updateCategoryCounts_same, updateTagCounts_same, updateCoverCategory_same]
    have hrun := updateIllustrationsCategory_run env old.Content req.Content
      (w.record (.esGet req.ID))
    rcases hr : updateIllustrationsCategory env old.Content req.Content
      (w.record (.esGet req.ID)) with ⟨res, w2⟩
    rw [hr] at hrun
    have hidx : w2.index = w.index := hrun.1
    cases res with
    | error e => rfl
    | ok u =>
      simp only [Update_eq]
      by_cases hf : env.fails w2.log
          (.esUpdate req.ID (marshalUpdate (articleToUpdate env.now req))) = true
      · simp [hf, World.record]
      · simp [hf, World.record, hidx, hd]
/-- C17: image-only update. The stored article decodes, and the request repeats its
category, tags and cover. Then `UpdateArticle` issues no category or tag counter call;
every reclassification call it issues is either the reset to "unused" of exactly the URLs
found in the old content and not in the new one, or the move to category 4 of exactly the
URLs found in the new content and not in the old one, so no call is made for the cover.
When no call fails the update succeeds, and after a successful update the calls are the
read, the reset (when there is a URL to reset), the move (when there is a URL to move) and
the index write, the counters are unchanged, and an image has category 4 when it is only in
the new content, category 0 when it is only in the old content, and its former category
otherwise. -/
theorem image_only_update (env : Env) (req : ArticleUpdateReq) (w : World) (d : Doc)
    (old : Article) (hd : w.index.lookup req.ID = some d) (hold : unmarshalArticle d = .ok old)
    (hcat : req.Category = old.Category) (htags : req.Tags.elems = old.Tags.elems)
    (hcover : req.Cover = old.Cover) :
    let r := UpdateArticle env req w
    let calls := callsSince w r.2
    let oldUrls := (env.findIllustrations old.Content).getD []
    let newUrls := (env.findIllustrations req.Content).getD []
    let removed := (DiffArrays oldUrls newUrls).2
    let added := (DiffArrays oldUrls newUrls).1
    (∀ u, u ∈ removed ↔ u ∈ oldUrls ∧ u ∉ newUrls) ∧
    (∀ u, u ∈ added ↔ u ∈ newUrls ∧ u ∉ oldUrls) ∧
    (∀ n, Call.incOrCreateCategory n ∉ calls) ∧
    (∀ n, Call.decOrDeleteCategory n ∉ calls) ∧
    (∀ l, Call.addOrIncTag l ∉ calls) ∧
    (∀ l, Call.decOrDeleteTag l ∉ calls) ∧
    (∀ l, Call.initImagesCategory l ∈ calls → l = removed ∧ removed ≠ []) ∧
    (∀ l k, Call.changeImagesCategory l k ∈ calls → l = added ∧ k = 4 ∧ added ≠ []) ∧
    ((∀ l c, env.fails l c = false) → r.1 = .ok ()) ∧
    (r.1 = .ok () →
      calls =
        [Call.esGet req.ID] ++
          (if removed ≠ [] then [Call.initImagesCategory removed] else []) ++
          (if added ≠ [] then [Call.changeImagesCategory added 4] else []) ++
          [Call.esUpdate req.ID (marshalUpdate (articleToUpdate env.now req))] ∧
      r.2.rel.categories = w.rel.categories ∧ r.2.rel.tags = w.rel.tags ∧
      ∀ u, r.2.rel.images u =
        if u ∈ newUrls ∧ u ∉ oldUrls then 4
        else if u ∈ oldUrls ∧ u ∉ newUrls then 0
        else w.rel.images u) := by
  intro r calls oldUrls newUrls removed added
  have hrem : ∀ u, u ∈ removed ↔ u ∈ oldUrls ∧ u ∉ newUrls := by
    intro u
    simp [removed, DiffArrays, List.mem_filter]
  have hadd : ∀ u, u ∈ added ↔ u ∈ newUrls ∧ u ∉ oldUrls := by
    intro u
    simp [added, DiffArrays, List.mem_filter]
  have heq := UpdateArticle_images_eq env req w d old hd hold hcover hcat htags
  have hrun := updateIllustrationsCategory_run env old.Content req.Content
    (w.record (.esGet req.ID))
  dsimp only at hrun
  have hR : (DiffArrays ((env.findIllustrations old.Content).getD [])
      ((env.findIllustrations req.Content).getD [])).2 = removed := rfl
  have hA : (DiffArrays ((env.findIllustrations old.Content).getD [])
      ((env.findIllustrations req.Content).getD [])).1 = added := rfl
  rw [hR, hA] at hrun
  refine ⟨hrem, hadd, ?_⟩
  have hadd2 : ∀ u, (u ∈ newUrls ∧ u ∉ oldUrls) ↔ u ∈ added := fun u => (hadd u).symm
  have hrem2 : ∀ u, (u ∈ oldUrls ∧ u ∉ newUrls) ↔ u ∈ removed := fun u => (hrem u).symm
  simp only [hadd2, hrem2]
  clear hR hA hrem hadd hadd2 hrem2
  clear_value removed added
  rcases hr : updateIllustrationsCategory env old.Content req.Content
    (w.record (.esGet req.ID)) with ⟨res, w2⟩
  rw [hr] at hrun heq
  obtain ⟨-, hc, ht, hlog, hinit, hchange, hok⟩ := hrun
  simp only [World.record] at hlog hinit hchange hok hc ht
  simp only [calls, r, heq]
  clear heq hr
  by_cases hg : env.fails w.log (Call.esGet req.ID) = true
  · refine ⟨?_, ?_, ?_, ?_, ?_, ?_, ?_, ?_⟩ <;> simp [hg, callsSince]
    exact ⟨_, _, hg⟩
  · by_cases hi : removed ≠ [] ∧
        env.fails (w.log ++ [Call.esGet req.ID]) (Call.initImagesCategory removed) = true
    · obtain ⟨rfl, -⟩ := hinit hi
      have hlog2 : w2.log = w.log ++ [Call.esGet req.ID, Call.initImagesCategory removed] := by
        rw [hlog]
        simp [hi]
      refine ⟨?_, ?_, ?_, ?_, ?_, ?_, ?_, ?_⟩ <;> simp [hg, hlog2, callsSince, hi.1]
      exact ⟨_, _, hi.2⟩
    · specialize hchange hi
      specialize hok hi
      by_cases hch : added ≠ [] ∧
          env.fails
            (if removed ≠ [] then
              w.log ++ [Call.esGet req.ID] ++ [Call.initImagesCategory removed]
            else w.log ++ [Call.esGet req.ID])
            (Call.changeImagesCategory added 4) = true
      · have hres := hchange hch
        subst hres
        have hlog2 : w2.log = w.log ++ (Call.esGet req.ID ::
            ((if removed ≠ [] then [Call.initImagesCategory removed] else []) ++
              [Call.changeImagesCategory added 4])) := by
          rw [hlog]
          by_cases h1 : removed = []
          · simp [hch.1, h1]
          · have h3 : env.fails (w.log ++ [Call.esGet req.ID])
                (Call.initImagesCategory removed) = false := by
              simpa [h1] using hi
            simp [hch.1, h1, h3]
        refine ⟨?_, ?_, ?_, ?_, ?_, ?_, ?_, ?_⟩ <;> simp [hg, hlog2, callsSince, hch.1]
        exact ⟨_, _, hch.2⟩
      · obtain ⟨rfl, himg⟩ := hok hch
        have hlog2 : w2.log = w.log ++ (Call.esGet req.ID ::
            ((if removed ≠ [] then [Call.initImagesCategory removed] else []) ++
              (if added ≠ [] then [Call.changeImagesCategory added 4] else []))) := by
          rw [hlog]
          by_cases h1 : removed = []
          · by_cases h2 : added = [] <;> simp [h1, h2]
          · have h3 : env.fails (w.log ++ [Call.esGet req.ID])
                (Call.initImagesCategory removed) = false := by
              simpa [h1] using hi
            by_cases h2 : added = [] <;> simp [h1, h2, h3]
        by_cases hf : env.fails w2.log
            (Call.esUpdate req.ID (marshalUpdate (articleToUpdate env.now req))) = true
        · simp only [hg, hf, if_true, if_false]
          refine ⟨?_, ?_, ?_, ?_, ?_, ?_, ?_, ?_⟩ <;>
            simp [hlog2, callsSince]
          · intro l k h1 h2 h3
            exact ⟨h2, h3, h1⟩
          · exact ⟨_, _, hf⟩
        · simp only [hg, hf, if_true, if_false]
          refine ⟨?_, ?_, ?_, ?_, ?_, ?_, ?_, ?_⟩ <;>
            simp [hlog2, callsSince, hc, ht, himg]
          · intro l k h1 h2 h3
            exact ⟨h2, h3, h1⟩
theorem image_only_update_witness :
    imageWorld.index.lookup imageUpdateReq.ID =
      some (marshalArticle (articleToCreate imageEnv.now imageCreateReq)) ∧
    unmarshalArticle (marshalArticle (articleToCreate imageEnv.now imageCreateReq)) =
      .ok (articleToCreate imageEnv.now imageCreateReq) ∧
    imageEnv.findIllustrations (articleToCreate imageEnv.now imageCreateReq).Content =
      some ["img1"] ∧
    imageEnv.findIllustrations imageUpdateReq.Content = some ["img2"] ∧
    callsSince imageWorld (UpdateArticle imageEnv imageUpdateReq imageWorld).2 =
      [Call.esGet "id-new", Call.initImagesCategory ["img1"],
        Call.changeImagesCategory ["img2"] 4,
        Call.esUpdate "id-new" (marshalUpdate (articleToUpdate imageEnv.now imageUpdateReq))] ∧
    (UpdateArticle imageEnv imageUpdateReq imageWorld).2.rel.images "img1" = 0 ∧
    (UpdateArticle imageEnv imageUpdateReq imageWorld).2.rel.images "img2" = 4 ∧
    (UpdateArticle imageEnv imageUpdateReq imageWorld).2.rel.images "c.png" =
      imageWorld.rel.images "c.png" :=
  have h := (image_only_update imageEnv imageUpdateReq imageWorld
    (marshalArticle (articleToCreate imageEnv.now imageCreateReq))
    (articleToCreate imageEnv.now imageCreateReq) (by rfl) (by rfl) rfl rfl rfl).2.2.2.2.2.2.2.2.2
    (by rfl)
  ⟨by rfl, by rfl, by rfl, by rfl, h.1, h.2.2.2 "img1", h.2.2.2 "img2", h.2.2.2 "c.png"⟩

/-! ## Query builder -/

theorem suppliedText_none_iff (o : Option String) :
    suppliedText o = none ↔ ∀ s, o = some s → TrimSpace s = "" := by
  cases o with
  | none => simp [suppliedText]
  | some s => by_cases h : TrimSpace s = "" <;> simp [suppliedText, h]

set_option maxHeartbeats 4000000 in
/-- Closed form of `buildArticleSearchRequest`: the clauses of the two groups, and the
fallback when both are empty. -/
theorem buildArticleSearchRequest_eq (info : ArticleListReq) :
    buildArticleSearchRequest info =
      if specMustClauses info = [] ∧ specFilterClauses info = [] then
        { query := { BoolQ := none, MatchAll := true },
          SortBy := some [("created_at", .desc)], From := none, Size := none }
      else
        { query := { BoolQ := some { Must := sliceOfClauses (specMustClauses info),
                                     Filter := sliceOfClauses (specFilterClauses info) },
                     MatchAll := false },
          SortBy := none, From := none, Size := none } := by
  rcases info with ⟨id, title, category, tag, abstract, vr, pageInfo⟩
  have key : ∀ o : Option String, o = none ∨ (∃ s, o = some s ∧ TrimSpace s = "") ∨
      (∃ s, o = some s ∧ ¬ TrimSpace s = "") := by
    intro o
    cases o with
    | none => exact Or.inl rfl
    | some s =>
      by_cases h : TrimSpace s = ""
      · exact Or.inr (Or.inl ⟨s, rfl, h⟩)
      · exact Or.inr (Or.inr ⟨s, rfl, h⟩)
  rcases key title with rfl | ⟨t, rfl, ht⟩ | ⟨t, rfl, ht⟩ <;>
    rcases key abstract with rfl | ⟨a, rfl, ha⟩ | ⟨a, rfl, ha⟩ <;>
    rcases key category with rfl | ⟨c, rfl, hc⟩ | ⟨c, rfl, hc⟩ <;>
    rcases key tag with rfl | ⟨g, rfl, hg⟩ | ⟨g, rfl, hg⟩ <;>
    by_cases hv : vr = 0 <;>
    simp [buildArticleSearchRequest, specMustClauses, specFilterClauses, suppliedText,
      sliceOfClauses, Slice.push, Slice.elems, *]
theorem specMustClauses_eq_nil (info : ArticleListReq) :
    specMustClauses info = [] ↔
      suppliedText info.Title = none ∧ suppliedText info.Abstract = none := by
  unfold specMustClauses
  cases suppliedText info.Title <;> cases suppliedText info.Abstract <;> simp

theorem specFilterClauses_eq_nil (info : ArticleListReq) :
    specFilterClauses info = [] ↔
      suppliedText info.Category = none ∧ suppliedText info.Tag = none ∧
        info.VisibleRange = 0 := by
  unfold specFilterClauses
  cases suppliedText info.Category <;> cases suppliedText info.Tag <;>
    by_cases hv : info.VisibleRange = 0 <;> simp [hv]

theorem sliceOfClauses_elems (l : List Clause) : (sliceOfClauses l).elems = l := by
  unfold sliceOfClauses
  by_cases h : l = []
  · simp [h, Slice.elems]
  · simp [h, Slice.elems]

/-- C12: query-builder fallback. `buildArticleSearchRequest` produces the
match-everything query sorted by `created_at` descending if and only if no filter is
supplied, that is title, abstract, category and tag are each nil or blank after trimming
and the visible range is 0; it then carries no bool query. In every other case it
produces a bool query, no match-all clause and no sort. The window is left unset in both
cases. -/
theorem query_builder_fallback (info : ArticleListReq) :
    let r := buildArticleSearchRequest info
    let blank := fun (o : Option String) => ∀ s, o = some s → TrimSpace s = ""
    let noFilter := blank info.Title ∧ blank info.Abstract ∧ blank info.Category ∧
      blank info.Tag ∧ info.VisibleRange = 0
    (noFilter ↔
      r.query.MatchAll = true ∧ r.SortBy = some [("created_at", SortOrder.desc)]) ∧
    (noFilter → r.query.BoolQ = none) ∧
    (¬ noFilter →
      (∃ b, r.query.BoolQ = some b) ∧ r.query.MatchAll = false ∧ r.SortBy = none) ∧
    r.From = none ∧ r.Size = none := by
  intro r blank noFilter
  have hno : noFilter ↔ specMustClauses info = [] ∧ specFilterClauses info = [] := by
    simp only [noFilter, blank, specMustClauses_eq_nil, specFilterClauses_eq_nil,
      suppliedText_none_iff]
    tauto
  simp only [r, buildArticleSearchRequest_eq, hno]
  by_cases h : specMustClauses info = [] ∧ specFilterClauses info = []
  · simp [h]
  · simp [h]

/-- C13: query-builder clause placement. When `buildArticleSearchRequest` produces a
bool query, its must group is the match on "title" with the title of the request when
that is supplied (present and not blank after trimming) followed by the match on
"abstract" with the abstract when supplied, and nothing else; its filter group is the
term on "category" with the category when supplied, then the term on "tags" with the
tag when supplied, then the term on "visible_range" with the visible range when that is
not 0, and nothing else. So the two groups together hold one clause per supplied filter.
When no bool query is produced, no filter is supplied. -/
theorem query_builder_clauses (info : ArticleListReq) :
    let r := buildArticleSearchRequest info
    let count := fun (o : Option String) => (suppliedText o).toList.length
    (∀ b, r.query.BoolQ = some b →
      b.Must.elems = specMustClauses info ∧ b.Filter.elems = specFilterClauses info ∧
      b.Must.elems.length + b.Filter.elems.length =
        count info.Title + count info.Abstract + count info.Category + count info.Tag +
          (if info.VisibleRange ≠ 0 then 1 else 0)) ∧
    (r.query.BoolQ = none → specMustClauses info = [] ∧ specFilterClauses info = []) := by
  intro r count
  simp only [r, buildArticleSearchRequest_eq]
  by_cases h : specMustClauses info = [] ∧ specFilterClauses info = []
  · simp [h]
  · simp only [h, if_false]
    refine ⟨?_, ?_⟩
    · intro b hb
      simp only [Option.some.injEq] at hb
      subst hb
      simp only [sliceOfClauses_elems, true_and, count]
      unfold specMustClauses specFilterClauses
      cases suppliedText info.Title <;> cases suppliedText info.Abstract <;>
        cases suppliedText info.Category <;> cases suppliedText info.Tag <;>
        by_cases hv : info.VisibleRange = 0 <;> simp [hv]
    · intro hb
      simp at hb

/-! ## Page metadata of the listing -/

theorem wrapInt_of_range (x : Int) (h1 : -intBound ≤ x) (h2 : x < intBound) :
    wrapInt x = x := by
  unfold wrapInt
  simp only [intBound] at *
  omega

/-- Truncating upward-rounded division of the page count is the ceiling of the
quotient, for a total that is not negative and a positive page size. -/
theorem pages_eq_ceil (t s : Int) (ht : 0 ≤ t) (hs : 1 ≤ s) :
    (t + s - 1).tdiv s = ⌈(t : ℚ) / (s : ℚ)⌉ := by
  have hs0 : (0 : Int) < s := by omega
  rw [Int.tdiv_eq_ediv (by omega) (by omega)]
  symm
  rw [Int.ceil_eq_iff]
  have h1 : (t + s - 1) / s * s ≤ t + s - 1 := Int.ediv_mul_le _ (by omega)
  have h2 : t + s - 1 < ((t + s - 1) / s + 1) * s := Int.lt_ediv_add_one_mul_self _ hs0
  have hsq : (0 : ℚ) < (s : ℚ) := by exact_mod_cast hs0
  constructor
  · rw [lt_div_iff₀ hsq]
    have : ((t + s - 1) / s - 1) * s < t := by
      have := h1
      linarith
    exact_mod_cast this
  · rw [div_le_iff₀ hsq]
    have : t ≤ (t + s - 1) / s * s := by
      have := h2
      linarith
    exact_mod_cast this
/-- Closed form of the filtered path of `GetArticleList`. -/
theorem articleListFiltered_eq (env : Env) (info : ArticleListReq) (w : World) :
    articleListFiltered env info w =
      let page := if info.pageInfo.Page < 1 then 1 else info.pageInfo.Page
      let pageSize := if info.pageInfo.PageSize < 1 then 10 else info.pageInfo.PageSize
      let request : SearchRequest :=
        { buildArticleSearchRequest info with
          Size := some pageSize, From := some (wrapInt ((page - 1) * pageSize)) }
      let call := Call.esSearch ArticleIndex request listingFields
      if env.fails w.log call = true then (.error .dependency, w.record call)
      else
        match FromHits (env.search w.index request listingFields).1 false with
        | .error e => (.error (.wrap "结果映射失败" e), w.record call)
        | .ok items =>
          (.ok { List := items, Total := (env.search w.index request listingFields).2,
                 Page := page, PageSize := pageSize,
                 TotalPages :=
                  (wrapInt ((env.search w.index request listingFields).2 + pageSize - 1)).tdiv
                    pageSize },
            w.record call) := by
  unfold articleListFiltered EsPagination
  simp only [bind_apply, listingFields, List.length_nil, if_true, Bool.false_eq_true, if_false]
  generalize (if info.pageInfo.Page < 1 then 1 else info.pageInfo.Page) = page
  generalize (if info.pageInfo.PageSize < 1 then 10 else info.pageInfo.PageSize) = pageSize
  split_ifs with hf
  · rfl
  · simp only []
    split <;> rename_i hm <;> simp only [hm] <;> rfl

theorem GetArticleList_filtered (env : Env) (info : ArticleListReq)
    (hid : ∀ id, info.ID = some id → id = "") :
    GetArticleList env info = articleListFiltered env info := by
  unfold GetArticleList
  cases h : info.ID with
  | none => rfl
  | some id => simp [hid id h]
/-- C11 (as stated, refuted): a page size at the top of the 64-bit range. The index
returns a total of 25 for the page size 9223372036854775807; the listing reports 0 total
pages, while the ceiling of 25 over that page size is 1. And for the page 2305843009213693953
with page size 4 the search window starts at -9223372036854775808, not at
(Page - 1) * PageSize. -/
theorem page_count_wraps_around :
    (GetArticleList (searchEnv [] 25) (pageReq 1 9223372036854775807) emptyWorld).1 =
      .ok { List := some [], Total := 25, Page := 1, PageSize := 9223372036854775807,
            TotalPages := 0 } ∧
    ⌈((25 : Int) : ℚ) / ((9223372036854775807 : Int) : ℚ)⌉ = 1 ∧
    callsSince emptyWorld
        (GetArticleList (searchEnv [] 0) (pageReq 2305843009213693953 4) emptyWorld).2 =
      [Call.esSearch ArticleIndex
        { buildArticleSearchRequest (pageReq 2305843009213693953 4) with
          Size := some 4, From := some (-9223372036854775808) } listingFields] ∧
    ((2305843009213693953 : Int) - 1) * 4 = 9223372036854775808 := by
  refine ⟨by rfl, ?_, by rfl, by decide⟩
  rw [Int.ceil_eq_iff]
  norm_num

/-- C11 (amended): page metadata of the filtered listing. The request has no id, or an
empty one; the search does not fail and returns the hits and a total that is not
negative, and the hits map to items. `page` and `pageSize` are the page and the page size
of the request, replaced by 1 and by 10 when below 1. Provided total + pageSize - 1 stays
below 2^63, `GetArticleList` reports these two values, the total, and as total pages the
ceiling of total / pageSize. The one search of the run asks for the window of size
`pageSize` that starts at (page - 1) * pageSize computed in 64 bits, which is
(page - 1) * pageSize itself when that stays below 2^63. -/
theorem page_metadata (env : Env) (info : ArticleListReq) (w : World)
    (page pageSize total : Int) (hits : List Hit) (items : Slice ArticleItemResp)
    (request : SearchRequest)
    (hid : ∀ id, info.ID = some id → id = "")
    (hpage : page = if info.pageInfo.Page < 1 then 1 else info.pageInfo.Page)
    (hsize : pageSize = if info.pageInfo.PageSize < 1 then 10 else info.pageInfo.PageSize)
    (hreq : request =
      { buildArticleSearchRequest info with
        Size := some pageSize, From := some (wrapInt ((page - 1) * pageSize)) })
    (hf : env.fails w.log (.esSearch ArticleIndex request listingFields) = false)
    (hs : env.search w.index request listingFields = (hits, total))
    (hmap : FromHits hits false = .ok items)
    (htotal : 0 ≤ total) (hsum : total + pageSize - 1 < intBound) :
    (GetArticleList env info w).1 =
      .ok { List := items, Total := total, Page := page, PageSize := pageSize,
            TotalPages := ⌈(total : ℚ) / (pageSize : ℚ)⌉ } ∧
    callsSince w (GetArticleList env info w).2 =
      [Call.esSearch ArticleIndex request listingFields] ∧
    request.Size = some pageSize ∧
    ((page - 1) * pageSize < intBound → request.From = some ((page - 1) * pageSize)) := by
  have hp1 : 1 ≤ page := by
    rw [hpage]
    split_ifs <;> omega
  have hs1 : 1 ≤ pageSize := by
    rw [hsize]
    split_ifs <;> omega
  rw [GetArticleList_filtered env info hid, articleListFiltered_eq]
  simp only [← hpage, ← hsize, ← hreq, hf, hs, hmap, Bool.false_eq_true, if_false]
  refine ⟨?_, ?_, ?_, ?_⟩
  · rw [wrapInt_of_range _ (by simp only [intBound]; omega) hsum,
      pages_eq_ceil total pageSize htotal hs1]
  · simp [callsSince, World.record]
  · rw [hreq]
  · intro hfrom
    have h0 : 0 ≤ (page - 1) * pageSize := Int.mul_nonneg (by omega) (by omega)
    rw [hreq, wrapInt_of_range _ (by simp only [intBound]; omega) hfrom]

theorem page_metadata_witness :
    (searchEnv [] 25).fails emptyWorld.log
      (.esSearch ArticleIndex
        { buildArticleSearchRequest (pageReq 0 0) with
          Size := some 10, From := some (wrapInt ((1 - 1) * 10)) } listingFields) = false ∧
    (0 : Int) ≤ 25 ∧ (25 : Int) + 10 - 1 < intBound ∧
    (GetArticleList (searchEnv [] 25) (pageReq 0 0) emptyWorld).1 =
      .ok { List := some [], Total := 25, Page := 1, PageSize := 10,
            TotalPages := ⌈((25 : Int) : ℚ) / ((10 : Int) : ℚ)⌉ } ∧
    ⌈((25 : Int) : ℚ) / ((10 : Int) : ℚ)⌉ = 3 ∧
    ⌈((0 : Int) : ℚ) / ((10 : Int) : ℚ)⌉ = 0 :=
  ⟨by rfl, by decide, by decide,
    (page_metadata (searchEnv [] 25) (pageReq 0 0) emptyWorld 1 10 25 [] (some [])
      { buildArticleSearchRequest (pageReq 0 0) with
        Size := some 10, From := some (wrapInt ((1 - 1) * 10)) }
      (by intro id h; cases h) (by rfl) (by rfl) rfl (by rfl) (by rfl) (by rfl)
      (by decide) (by decide)).1,
    by rw [Int.ceil_eq_iff]; norm_num,
    by rw [Int.ceil_eq_iff]; norm_num⟩
/-! ## Mapping of hits to response items -/

theorem FromHit_ok_iff (h : Hit) (b : Bool) (it : ArticleItemResp) :
    FromHit h b = .ok it ↔
      ∃ a, unmarshalArticle h.Source = .ok a ∧ it = FromArticle (h.Id.getD "") a b := by
  unfold FromHit
  cases hs : unmarshalArticle h.Source with
  | error e => simp
  | ok a =>
    cases hid : h.Id <;> simp [eq_comm]

theorem FromHit_error_iff (h : Hit) (b : Bool) (e : Err) :
    FromHit h b = .error e ↔ unmarshalArticle h.Source = .error e := by
  unfold FromHit
  cases hs : unmarshalArticle h.Source <;> simp

theorem fromHitsLoop_ok (b : Bool) (hits : List Hit) (out : List ArticleItemResp)
    (hall : ∀ h ∈ hits, ∃ it, FromHit h b = .ok it) :
    ∃ items, fromHitsLoop b hits out = .ok (some (out ++ items)) ∧
      List.Forall₂ (fun h it => FromHit h b = .ok it) hits items := by
  induction hits generalizing out with
  | nil => exact ⟨[], by simp [fromHitsLoop], List.Forall₂.nil⟩
  | cons h rest ih =>
    obtain ⟨it, hit⟩ := hall h (List.mem_cons_self _ _)
    obtain ⟨items, hrun, hrel⟩ := ih (out ++ [it])
      (fun x hx => hall x (List.mem_cons_of_mem _ hx))
    refine ⟨it :: items, ?_, List.Forall₂.cons hit hrel⟩
    simp only [fromHitsLoop, hit, hrun, List.append_assoc, List.singleton_append]

theorem fromHitsLoop_error (b : Bool) (hits : List Hit) (out : List ArticleItemResp)
    (h : Hit) (hmem : h ∈ hits) (e : Err) (herr : FromHit h b = .error e) :
    ∃ e2, fromHitsLoop b hits out = .error e2 := by
  induction hits generalizing out with
  | nil => cases hmem
  | cons x rest ih =>
    cases hx : FromHit x b with
    | error e1 => exact ⟨e1, by simp only [fromHitsLoop, hx]⟩
    | ok it =>
      have hrest : h ∈ rest := by
        rcases List.mem_cons.mp hmem with rfl | hr
        · rw [hx] at herr
          cases herr
        · exact hr
      obtain ⟨e2, he2⟩ := ih (out ++ [it]) hrest
      exact ⟨e2, by simp only [fromHitsLoop, hx, he2]⟩

theorem forall₂_mem_right {α β : Type} {R : α → β → Prop} {l1 : List α} {l2 : List β}
    (h : List.Forall₂ R l1 l2) (b : β) (hb : b ∈ l2) : ∃ a ∈ l1, R a b := by
  induction h with
  | nil => cases hb
  | cons hab _ ih =>
    rcases List.mem_cons.mp hb with rfl | hm
    · exact ⟨_, List.mem_cons_self _ _, hab⟩
    · obtain ⟨a, ha1, ha2⟩ := ih hm
      exact ⟨a, List.mem_cons_of_mem _ ha1, ha2⟩

theorem FromHits_false_content (hits : List Hit) (items : Slice ArticleItemResp)
    (h : FromHits hits false = .ok items) : ∀ it ∈ items.elems, it.Content = "" := by
  have hall : ∀ x ∈ hits, ∃ it, FromHit x false = .ok it := by
    intro x hx
    cases hfx : FromHit x false with
    | ok it => exact ⟨it, rfl⟩
    | error e =>
      obtain ⟨e2, he2⟩ := fromHitsLoop_error false hits [] x hx e hfx
      unfold FromHits at h
      rw [he2] at h
      cases h
  obtain ⟨l, hrun, hrel⟩ := fromHitsLoop_ok false hits [] hall
  unfold FromHits at h
  rw [hrun] at h
  cases h
  intro it hit
  simp only [Slice.elems, List.nil_append] at hit
  obtain ⟨x, -, hx⟩ := forall₂_mem_right hrel it hit
  obtain ⟨a, -, rfl⟩ := (FromHit_ok_iff x false it).mp hx
  rfl

/-- C14: mapping of hits to response items. When every source decodes, `FromHits`
returns a non-nil list with one item per hit, in the order of the hits; the item of a
hit has the id of the hit ("" when the hit has none), every field but the content equal
to that field of the decoded source, and a content that is empty when the content is not
requested and the content of the source when it is. `FromHits` returns an error exactly
when the source of some hit does not decode. Every item of a filtered listing that
`GetArticleList` returns has an empty content. -/
theorem listing_omits_content (hits : List Hit) (includeContent : Bool) :
    let itemOf := fun (h : Hit) (a : Article) =>
      ({ ID := h.Id.getD "", CreatedAt := a.CreatedAt, UpdatedAt := a.UpdatedAt,
         Cover := a.Cover, Title := a.Title, Keyword := a.Keyword, Category := a.Category,
         Tags := a.Tags, Abstract := a.Abstract,
         Content := if includeContent = true then a.Content else "",
         VisibleRange := a.VisibleRange, Views := a.Views, Comments := a.Comments,
         Likes := a.Likes } : ArticleItemResp)
    ((∀ h ∈ hits, ∃ a, unmarshalArticle h.Source = .ok a) →
      ∃ items, FromHits hits includeContent = .ok (some items) ∧
        items.length = hits.length ∧
        List.Forall₂ (fun h it => ∃ a, unmarshalArticle h.Source = .ok a ∧ it = itemOf h a)
          hits items) ∧
    ((∃ e, FromHits hits includeContent = .error e) ↔
      ∃ h ∈ hits, ∃ e, unmarshalArticle h.Source = .error e) ∧
    (∀ (env : Env) (info : ArticleListReq) (w w1 : World) (resp : ArticleListResp),
      (∀ id, info.ID = some id → id = "") →
      GetArticleList env info w = (.ok resp, w1) →
      ∀ it ∈ resp.List.elems, it.Content = "") := by
  intro itemOf
  have hitem : ∀ (h : Hit) (a : Article),
      FromArticle (h.Id.getD "") a includeContent = itemOf h a := by
    intro h a
    cases includeContent <;> rfl
  refine ⟨?_, ?_, ?_⟩
  · intro hall
    obtain ⟨items, hrun, hrel⟩ := fromHitsLoop_ok includeContent hits [] (by
      intro h hh
      obtain ⟨a, ha⟩ := hall h hh
      exact ⟨_, (FromHit_ok_iff h includeContent _).mpr ⟨a, ha, rfl⟩⟩)
    refine ⟨items, by simpa [FromHits] using hrun, hrel.length_eq.symm, ?_⟩
    refine hrel.imp ?_
    intro h it hok
    obtain ⟨a, ha, rfl⟩ := (FromHit_ok_iff h includeContent it).mp hok
    exact ⟨a, ha, hitem h a⟩
  · constructor
    · rintro ⟨e, he⟩
      by_contra hno
      have hall : ∀ h ∈ hits, ∃ it, FromHit h includeContent = .ok it := by
        intro h hh
        cases hs : unmarshalArticle h.Source with
        | error e1 => exact absurd ⟨h, hh, e1, hs⟩ hno
        | ok a => exact ⟨_, (FromHit_ok_iff h includeContent _).mpr ⟨a, hs, rfl⟩⟩
      obtain ⟨items, hrun, -⟩ := fromHitsLoop_ok includeContent hits [] hall
      unfold FromHits at he
      rw [hrun] at he
      cases he
    · rintro ⟨h, hh, e, he⟩
      exact fromHitsLoop_error includeContent hits [] h hh e
        ((FromHit_error_iff h includeContent e).mpr he)
  · intro env info w w1 resp hid hrun
    rw [GetArticleList_filtered env info hid, articleListFiltered_eq] at hrun
    dsimp only at hrun
    generalize (if info.pageInfo.Page < 1 then 1 else info.pageInfo.Page) = page at hrun
    generalize (if info.pageInfo.PageSize < 1 then 10 else info.pageInfo.PageSize) =
      pageSize at hrun
    split_ifs at hrun with hf
    · cases hrun
    · split at hrun
      · cases hrun
      · rename_i items hm
        simp only [Prod.mk.injEq, Except.ok.injEq] at hrun
        obtain ⟨rfl, -⟩ := hrun
        exact FromHits_false_content _ _ hm

end Blog
